import Mathlib

/-!
Verification of the AI-chat client gateway (`ai_client.py`).

The embedding models, faithfully to the Python source:
  * JSON values exchanged with the backend (`JVal`), with JSON numbers
    restricted to integers — floating point is outside the embedding;
  * `json.dumps` (`dumps`) and `json.loads` (`loadsL`), scoped to that
    integer-number value domain, with `ensure_ascii`-style escaping of
    control characters only (non-ASCII characters are emitted raw, as with
    `ensure_ascii=False`; this does not affect any property proved here);
  * the response-normalization functions `_extract_from_harmony_message`
    and `_extract_text_or_json`;
  * the prompt flattener `_messages_to_prompt`;
  * the transport wrapper `_post_json` and the gateway `_chat`, with the
    HTTP backend abstracted as a function from requests to responses and
    the network trace returned explicitly;
  * the strict-JSON coercion `_coerce_json` with its fence-stripping and
    first-`{...}`/`[...]` substring extraction.
-/

/-- JSON values, as decoded by Python `json.loads` from backend bodies.
Numbers are modelled as integers; floats are outside the embedding. -/
inductive JVal where
  | null : JVal
  | bool : Bool → JVal
  | num : Int → JVal
  | str : String → JVal
  | arr : List JVal → JVal
  | obj : List (String × JVal) → JVal
deriving Repr

/-- Python truthiness of a JSON-shaped value (`if out:` etc.). -/
def pyTruthy : JVal → Bool
  | .null => false
  | .bool b => b
  | .num n => n ≠ 0
  | .str s => s ≠ ""
  | .arr xs => ¬xs.isEmpty
  | .obj kvs => ¬kvs.isEmpty

/-- Does the value carry Python type `str`? -/
def isStrJ : JVal → Bool
  | .str _ => true
  | _ => false

/-- Python dict lookup `d[k]` / `k in d`, on the association-list model of a
dict (keys unique in practice; first binding wins). -/
def jGet (d : List (String × JVal)) (k : String) : Option JVal :=
  (d.find? (fun p => p.1 == k)).map (fun p => p.2)

/-- `sep.join(xs)` from Python. -/
def pyJoin (sep : String) : List String → String
  | [] => ""
  | [x] => x
  | x :: xs => x ++ sep ++ pyJoin sep xs

/-- Decimal digit as a character. -/
def digitChar (n : Nat) : Char := Char.ofNat (48 + n)

/-- Decimal digits of a natural number, most significant first
(the digits of Python `repr(n)`). -/
def digitChars (n : Nat) : List Char :=
  if n < 10 then [digitChar n]
  else digitChars (n / 10) ++ [digitChar (n % 10)]
decreasing_by exact Nat.div_lt_self (by omega) (by omega)

/-- Characters of Python `repr(n)` for an int: optional sign then digits. -/
def intChars (n : Int) : List Char :=
  if n < 0 then '-' :: digitChars n.natAbs else digitChars n.natAbs

/-- Lower-case hexadecimal digit. -/
def hexDigitChar (n : Nat) : Char :=
  if n < 10 then Char.ofNat (48 + n) else Char.ofNat (87 + n)

/-- `json.dumps` escaping of one character inside a string literal:
quote, backslash and the short control escapes, `\u00XX` for the other
control characters, everything else raw. -/
def escChar (c : Char) : List Char :=
  if c = '"' then ['\\', '"']
  else if c = '\\' then ['\\', '\\']
  else if c = '\n' then ['\\', 'n']
  else if c = '\t' then ['\\', 't']
  else if c = '\r' then ['\\', 'r']
  else if c = '\x08' then ['\\', 'b']
  else if c = '\x0c' then ['\\', 'f']
  else if c.toNat < 32 then
    '\\' :: 'u' :: '0' :: '0' :: hexDigitChar (c.toNat / 16) :: [hexDigitChar (c.toNat % 16)]
  else [c]

/-- Escape a whole character sequence. -/
def escList : List Char → List Char
  | [] => []
  | c :: cs => escChar c ++ escList cs

/-- Characters of the `json.dumps` form of a string: quoted and escaped. -/
def strChars (s : String) : List Char :=
  '"' :: (escList s.data ++ ['"'])

mutual
/-- Characters of `json.dumps(v)` with the default separators `", "` and
`": "`, insertion order preserved. -/
def dChars : JVal → List Char
  | .null => 'n' :: 'u' :: 'l' :: ['l']
  | .bool true => 't' :: 'r' :: 'u' :: ['e']
  | .bool false => 'f' :: 'a' :: 'l' :: 's' :: ['e']
  | .num n => intChars n
  | .str s => strChars s
  | .arr [] => ['[', ']']
  | .arr (x :: xs) => '[' :: (seqChars x xs ++ [']'])
  | .obj [] => ['\x7b', '\x7d']
  | .obj (kv :: kvs) => '\x7b' :: (pairSeqChars kv kvs ++ ['\x7d'])
termination_by v => sizeOf v
decreasing_by all_goals (simp_wf <;> omega)

/-- Comma-separated rendering of a nonempty element list. -/
def seqChars : JVal → List JVal → List Char
  | x, [] => dChars x
  | x, y :: ys => dChars x ++ ',' :: ' ' :: seqChars y ys
termination_by x xs => 1 + sizeOf x + sizeOf xs
decreasing_by all_goals (simp_wf <;> omega)

/-- Rendering of one `"key": value` pair. -/
def pairChars : String × JVal → List Char
  | (k, v) => strChars k ++ ':' :: ' ' :: dChars v
termination_by p => sizeOf p
decreasing_by all_goals (simp_wf <;> omega)

/-- Comma-separated rendering of a nonempty pair list. -/
def pairSeqChars : String × JVal → List (String × JVal) → List Char
  | kv, [] => pairChars kv
  | kv, p :: ps => pairChars kv ++ ',' :: ' ' :: pairSeqChars p ps
termination_by kv ps => 1 + sizeOf kv + sizeOf ps
decreasing_by all_goals (simp_wf <;> omega)
end

/-- `json.dumps` on the modelled value domain. -/
def dumps (v : JVal) : String := String.mk (dChars v)

/-! ## The `json.loads` model: a fueled recursive-descent parser
matching Python's `json` decoder on the embedded value domain. -/

/-- JSON whitespace skipped by Python's decoder (`' \t\n\r'`). -/
def isJsonWs (c : Char) : Bool :=
  c = ' ' ∨ c = '\r' ∨ c = '\n' ∨ c = '\t'

/-- Skip JSON whitespace. -/
def skipWs (l : List Char) : List Char := l.dropWhile isJsonWs

/-- Accumulate a digit run into a natural number, most significant first. -/
def foldDigits (l : List Char) : Nat :=
  l.foldl (fun a c => 10 * a + (c.toNat - 48)) 0

/-- Parse an unsigned JSON integer literal: `0`, or a nonzero digit followed
by a maximal digit run (Python's `NUMBER_RE` integer part). -/
def parseUInt : List Char → Option (Nat × List Char)
  | [] => none
  | c :: r =>
    if c = '0' then some (0, r)
    else if c.isDigit then
      some (foldDigits (c :: r.takeWhile Char.isDigit), r.dropWhile Char.isDigit)
    else none

/-- Parse a JSON number. A following `.`/`e`/`E` would make it a float,
which is outside the embedded domain, so the parse is rejected there. -/
def parseNumTok (l : List Char) : Option (JVal × List Char) :=
  let core : Option (Int × List Char) :=
    if l.head? = some '-' then (parseUInt l.tail).map (fun p => (-(p.1 : Int), p.2))
    else (parseUInt l).map (fun p => ((p.1 : Int), p.2))
  match core with
  | none => none
  | some (n, r) =>
    if r.head? = some '.' ∨ r.head? = some 'e' ∨ r.head? = some 'E' then none
    else some (.num n, r)

/-- Value of one hexadecimal digit, both cases. -/
def hexVal? (c : Char) : Option Nat :=
  if '0' ≤ c ∧ c ≤ '9' then some (c.toNat - 48)
  else if 'a' ≤ c ∧ c ≤ 'f' then some (c.toNat - 87)
  else if 'A' ≤ c ∧ c ≤ 'F' then some (c.toNat - 55)
  else none

/-- Parse the body of a JSON string after the opening quote, in strict mode:
raw control characters are rejected, escapes are decoded. Lone-surrogate
`\uXXXX` escapes are outside the embedding and rejected. -/
def parseStringBody : List Char → Option (List Char × List Char)
  | [] => none
  | c :: r =>
    if c = '"' then some ([], r)
    else if c = '\\' then
      match r with
      | [] => none
      | e :: r2 =>
        if e = '"' then (parseStringBody r2).map (fun p => ('"' :: p.1, p.2))
        else if e = '\\' then (parseStringBody r2).map (fun p => ('\\' :: p.1, p.2))
        else if e = '/' then (parseStringBody r2).map (fun p => ('/' :: p.1, p.2))
        else if e = 'b' then (parseStringBody r2).map (fun p => ('\x08' :: p.1, p.2))
        else if e = 'f' then (parseStringBody r2).map (fun p => ('\x0c' :: p.1, p.2))
        else if e = 'n' then (parseStringBody r2).map (fun p => ('\n' :: p.1, p.2))
        else if e = 'r' then (parseStringBody r2).map (fun p => ('\r' :: p.1, p.2))
        else if e = 't' then (parseStringBody r2).map (fun p => ('\t' :: p.1, p.2))
        else if e = 'u' then
          match r2 with
          | h1 :: h2 :: h3 :: h4 :: r3 =>
            match hexVal? h1, hexVal? h2, hexVal? h3, hexVal? h4 with
            | some a, some b, some c2, some d =>
              let n := ((a * 16 + b) * 16 + c2) * 16 + d
              if 0xD800 ≤ n ∧ n < 0xE000 then none
              else (parseStringBody r3).map (fun p => (Char.ofNat n :: p.1, p.2))
            | _, _, _, _ => none
          | _ => none
        else none
    else if c.toNat < 32 then none
    else (parseStringBody r).map (fun p => (c :: p.1, p.2))

mutual
/-- Parse one JSON value (fueled; the fuel only bounds recursion depth). -/
def parseValF : Nat → List Char → Option (JVal × List Char)
  | 0, _ => none
  | Nat.succ fuel, l =>
    match l with
    | [] => none
    | c :: cs =>
      if c = 'n' then
        match cs with
        | 'u' :: 'l' :: 'l' :: r => some (.null, r)
        | _ => none
      else if c = 't' then
        match cs with
        | 'r' :: 'u' :: 'e' :: r => some (.bool true, r)
        | _ => none
      else if c = 'f' then
        match cs with
        | 'a' :: 'l' :: 's' :: 'e' :: r => some (.bool false, r)
        | _ => none
      else if c = '"' then
        (parseStringBody cs).map (fun p => (.str (String.mk p.1), p.2))
      else if c = '[' then
        let cs1 := skipWs cs
        if cs1.head? = some ']' then some (.arr [], cs1.tail)
        else (parseElemsF fuel cs1).map (fun p => (.arr p.1, p.2))
      else if c = '\x7b' then
        let cs1 := skipWs cs
        if cs1.head? = some '\x7d' then some (.obj [], cs1.tail)
        else (parsePairsF fuel cs1).map (fun p => (.obj p.1, p.2))
      else parseNumTok (c :: cs)

/-- Parse the elements of a nonempty JSON array after the opening bracket. -/
def parseElemsF : Nat → List Char → Option (List JVal × List Char)
  | 0, _ => none
  | Nat.succ fuel, l =>
    match parseValF fuel l with
    | none => none
    | some (v, afterVal) =>
      match skipWs afterVal with
      | ',' :: afterComma =>
        match parseElemsF fuel (skipWs afterComma) with
        | some (vs, afterElems) => some (v :: vs, afterElems)
        | none => none
      | ']' :: afterClose => some ([v], afterClose)
      | _ => none

/-- Parse the members of a nonempty JSON object after the opening brace. -/
def parsePairsF : Nat → List Char → Option (List (String × JVal) × List Char)
  | 0, _ => none
  | Nat.succ fuel, l =>
    match l with
    | '"' :: cs =>
      match parseStringBody cs with
      | none => none
      | some (k, afterKey) =>
        match skipWs afterKey with
        | ':' :: afterColon =>
          match parseValF fuel (skipWs afterColon) with
          | none => none
          | some (v, afterVal) =>
            match skipWs afterVal with
            | ',' :: afterComma =>
              match parsePairsF fuel (skipWs afterComma) with
              | some (kvs, afterPairs) => some ((String.mk k, v) :: kvs, afterPairs)
              | none => none
            | '\x7d' :: afterClose => some ([(String.mk k, v)], afterClose)
            | _ => none
        | _ => none
    | _ => none
end

/-- `json.loads` on a character list: skip surrounding whitespace, parse one
value, reject trailing garbage. The fuel `2·n + 2` strictly exceeds the
parser's recursion depth on any input of length `n`. -/
def loadsL (l : List Char) : Option JVal :=
  let l1 := skipWs l
  match parseValF (2 * l1.length + 2) l1 with
  | some (v, rest) => if (skipWs rest).isEmpty then some v else none
  | none => none

/-- `json.loads` on a string. -/
def loads (s : String) : Option JVal := loadsL s.data

/-! ## `_coerce_json`: fence stripping, substring extraction, coercion. -/

/-- ASCII whitespace: the characters stripped by Python `str.strip()` and
matched by `\s` (the embedding is scoped to ASCII whitespace). -/
def isPyWs (c : Char) : Bool :=
  c = ' ' ∨ c = '\t' ∨ c = '\n' ∨ c = '\r' ∨ c = '\x0b' ∨ c = '\x0c'

/-- `s.strip()`. -/
def pyStripL (l : List Char) : List Char :=
  ((l.dropWhile isPyWs).reverse.dropWhile isPyWs).reverse

/-- The backtick character (fence marker). -/
def btick : Char := Char.ofNat 96

/-- Remove a trailing `` \s*``` `` match of `_JSON_FENCE` (the `$`-anchored
alternative): three final backticks and the whitespace run before them. -/
def trailingFence (t : List Char) : List Char :=
  match t.reverse with
  | b1 :: b2 :: b3 :: r =>
    if b1 = btick ∧ b2 = btick ∧ b3 = btick then (r.dropWhile isPyWs).reverse
    else t
  | _ => t

/-- `_JSON_FENCE.sub("", ·)` on an already-stripped string: remove a leading
```` ``` ````/```` ```json ```` (case-insensitive) with trailing whitespace,
and a trailing ```` ``` ```` with the whitespace run before it. -/
def stripFencesL (t : List Char) : List Char :=
  match t with
  | b1 :: b2 :: b3 :: r =>
    if b1 = btick ∧ b2 = btick ∧ b3 = btick then
      let r1 :=
        match r with
        | j :: s :: o :: n :: r2 =>
          if j.toLower = 'j' ∧ s.toLower = 's' ∧ o.toLower = 'o' ∧ n.toLower = 'n' then r2
          else j :: s :: o :: n :: r2
        | _ => r
      trailingFence (r1.dropWhile isPyWs)
    else trailingFence t
  | _ => trailingFence t

/-- The prefix of `l` that ends at the last occurrence of `ch` (used for the
greedy `.*` of `_FIRST_JSON`); meaningful when `ch ∈ l`. -/
def upToLast (ch : Char) (l : List Char) : List Char :=
  (l.reverse.dropWhile (fun c => ¬c = ch)).reverse

/-- `_FIRST_JSON.search`: the earliest position opening a brace/bracket with
a matching closer somewhere later, extended greedily to the last closer. -/
def firstJsonL : List Char → Option (List Char)
  | [] => none
  | c :: rest =>
    if c = '\x7b' ∧ '\x7d' ∈ rest then some ('\x7b' :: upToLast '\x7d' rest)
    else if c = '[' ∧ ']' ∈ rest then some ('[' :: upToLast ']' rest)
    else firstJsonL rest

/-- The candidate text `_coerce_json` works on: `_JSON_FENCE.sub("", s.strip())`. -/
def candidateOf (s : String) : List Char := stripFencesL (pyStripL s.data)

/-- Failures of `_coerce_json`: the explicit `ValueError` carrying the first
500 characters of the candidate, or the `json.JSONDecodeError` propagating
out of `json.loads` on the extracted substring. -/
inductive CoerceError where
  | malformed : String → CoerceError
  | decodeFailure : CoerceError
deriving Repr, DecidableEq

/-- `_coerce_json` on a Python `str` argument. -/
def coerceStr (s : String) : Except CoerceError JVal :=
  let candidate := candidateOf s
  match loadsL candidate with
  | some v => .ok v
  | none =>
    match firstJsonL candidate with
    | some sub =>
      match loadsL sub with
      | some v => .ok v
      | none => .error .decodeFailure
    | none => .error (.malformed (String.mk (candidate.take 500)))

/-- `_coerce_json`: non-`str` inputs are returned unchanged. -/
def coerce_json : JVal → Except CoerceError JVal
  | .str s => coerceStr s
  | v => .ok v

/-! ## Response normalization: `_extract_from_harmony_message`,
`_extract_text_or_json`. -/

/-- One character of Python `repr` for a string, given the chosen quote. -/
def pyReprChar (q c : Char) : List Char :=
  if c = '\\' then ['\\', '\\']
  else if c = q then ['\\', q]
  else if c = '\n' then ['\\', 'n']
  else if c = '\r' then ['\\', 'r']
  else if c = '\t' then ['\\', 't']
  else if c.toNat < 32 then
    '\\' :: 'x' :: hexDigitChar (c.toNat / 16) :: [hexDigitChar (c.toNat % 16)]
  else [c]

/-- Python `repr` of a string: single-quoted, double-quoted when the text
contains a single quote but no double quote (ASCII scope). -/
def pyStrRepr (s : String) : String :=
  let q : Char := if '\'' ∈ s.data ∧ ¬('"' ∈ s.data) then '"' else '\''
  String.mk (q :: s.data.flatMap (pyReprChar q) ++ [q])

mutual
/-- Python `repr` of a JSON-shaped value. -/
def pyRepr : JVal → String
  | .null => "None"
  | .bool true => "True"
  | .bool false => "False"
  | .num n => String.mk (intChars n)
  | .str s => pyStrRepr s
  | .arr [] => "[]"
  | .arr (x :: xs) => "[" ++ pyReprSeq x xs ++ "]"
  | .obj [] => "\x7b\x7d"
  | .obj (kv :: kvs) => "\x7b" ++ pyReprPairSeq kv kvs ++ "\x7d"
termination_by v => sizeOf v
decreasing_by all_goals (simp_wf <;> omega)

/-- Comma-separated `repr` of list elements. -/
def pyReprSeq : JVal → List JVal → String
  | x, [] => pyRepr x
  | x, y :: ys => pyRepr x ++ ", " ++ pyReprSeq y ys
termination_by x xs => 1 + sizeOf x + sizeOf xs
decreasing_by all_goals (simp_wf <;> omega)

/-- Comma-separated `repr` of dict items. -/
def pyReprPairSeq : String × JVal → List (String × JVal) → String
  | (k, v), [] => pyStrRepr k ++ ": " ++ pyRepr v
  | (k, v), p :: ps => pyStrRepr k ++ ": " ++ pyRepr v ++ ", " ++ pyReprPairSeq p ps
termination_by kv ps => 1 + sizeOf kv + sizeOf ps
decreasing_by all_goals (simp_wf <;> omega)
end

/-- Python `str()` of a JSON-shaped value (`str(part["text"])`). -/
def pyStr : JVal → String
  | .str s => s
  | v => pyRepr v

/-- Python `a or b`: the first operand when truthy, otherwise the second. -/
def pyOr (a b : JVal) : JVal := if pyTruthy a then a else b

/-- The `first_json` contribution of one content block: the value of its
`json` field, except that a JSON `null` there leaves `first_json` as Python
`None`, i.e. counts as absent. Non-dict blocks are skipped. -/
def headJsonOf : JVal → Option JVal
  | .obj p =>
    match jGet p "json" with
    | some .null => none
    | some jv => some jv
    | none => none
  | _ => none

/-- The text contributions of one content block: its `text` field coerced by
`str()`, or else its `content` field when its `type` is
`output_text`/`text`. Non-dict blocks contribute nothing. -/
def headTextsOf : JVal → List String
  | .obj p =>
    match jGet p "text" with
    | some tv => [pyStr tv]
    | none =>
      match jGet p "type" with
      | some (.str ty) =>
        if (ty = "output_text" ∨ ty = "text") ∧ (jGet p "content").isSome then
          match jGet p "content" with
          | some cv => [pyStr cv]
          | none => []
        else []
      | _ => []
  | _ => []

/-- The loop of `_extract_from_harmony_message` over the block list:
the first non-null `json` value and the collected texts, in order. -/
def harmonyScan : List JVal → Option JVal × List String
  | [] => (none, [])
  | part :: rest =>
    let tailScan := harmonyScan rest
    (match headJsonOf part with
     | some j => some j
     | none => tailScan.1,
     headTextsOf part ++ tailScan.2)

/-- `message_obj.get("text") or message_obj.get("response") or ""`. -/
def harmonyFallthrough (m : List (String × JVal)) : JVal :=
  pyOr ((jGet m "text").getD .null) (pyOr ((jGet m "response").getD .null) (.str ""))

/-- `_extract_from_harmony_message(message_obj)`. -/
def extract_from_harmony_message (m : List (String × JVal)) : JVal :=
  match jGet m "content" with
  | some (.str s) => .str s
  | some (.arr parts) =>
    let scan := harmonyScan parts
    match scan.1 with
    | some j => .str (dumps j)
    | none =>
      if scan.2.isEmpty then harmonyFallthrough m
      else .str (pyJoin "" scan.2)
  | _ => harmonyFallthrough m

/-- The tail of `_extract_text_or_json` after the `message` branch did not
return: the `response`, `content` and last-resort shapes. -/
def extractTail (d : List (String × JVal)) (data : JVal) : JVal :=
  match jGet d "response" with
  | some r => r
  | none =>
    match jGet d "content" with
    | some (.str c) => .str c
    | some (.arr c) => extract_from_harmony_message [("content", .arr c)]
    | _ => .str (dumps data)

/-- `_extract_text_or_json(data)`. -/
def extract_text_or_json (data : JVal) : JVal :=
  match data with
  | .obj d =>
    match jGet d "message" with
    | some (.obj m) =>
      let out := extract_from_harmony_message m
      if pyTruthy out then out else extractTail d data
    | _ => extractTail d data
  | _ => .str (dumps data)

/-! ## The gateway: `_messages_to_prompt`, `_post_json`, `_chat`. -/

/-- One conversation turn. -/
structure Message where
  role : String
  content : String
deriving Repr, DecidableEq

/-- The `options` map sent with a request. The temperature is passed through
uninterpreted; `ℚ` stands in for the Python float. -/
structure ReqOptions where
  temperature : ℚ
  format : Option String
deriving Repr, DecidableEq

/-- Body of a POST: chat-style or legacy generate-style. -/
inductive ReqPayload where
  | chatP : String → List Message → Bool → ReqOptions → ReqPayload
  | genP : String → String → Bool → ReqOptions → ReqPayload
deriving Repr, DecidableEq

/-- `payload.get("model")`. -/
def payloadModel : ReqPayload → String
  | .chatP m _ _ _ => m
  | .genP m _ _ _ => m

/-- One outbound HTTP POST. -/
structure Request where
  url : String
  payload : ReqPayload
deriving Repr, DecidableEq

/-- An HTTP response: status code, reason phrase, raw text body, and the
value `r.json()` would decode (responses used by `_chat` are JSON). -/
structure HttpResponse where
  status : Nat
  reason : String
  text : String
  jsonBody : JVal

/-- The backend: a deterministic map from requests to responses, standing in
for the network. -/
def Backend := Request → HttpResponse

/-- The `requests.HTTPError` raised by `_post_json`: its message, and its
`response` attribute — which `HTTPError(...)` leaves as `None` because
`_post_json` re-raises without passing `response=`. -/
structure PyHTTPError where
  message : String
  response : Option HttpResponse

/-- `Response.raise_for_status()` message text (`requests`' format). -/
def raiseForStatusMsg (r : HttpResponse) (url : String) : String :=
  if r.status < 500 then
    toString r.status ++ " Client Error: " ++ r.reason ++ " for url: " ++ url
  else
    toString r.status ++ " Server Error: " ++ r.reason ++ " for url: " ++ url

/-- `r.text[:500]` (first 500 characters). -/
def textHead500 (r : HttpResponse) : String := String.mk (r.text.data.take 500)

/-- `_post_json(url, payload)`: raise a fresh `HTTPError` — carrying the
original message, the model name, and at most 500 characters of the body,
but *no* `response` attribute — on any 4xx/5xx status. -/
def post_json (backend : Backend) (req : Request) : Except PyHTTPError HttpResponse :=
  let r := backend req
  if 400 ≤ r.status ∧ r.status < 600 then
    .error
      { message := raiseForStatusMsg r req.url ++ " (model=" ++ payloadModel req.payload ++ ")"
          ++ " | server said: " ++ textHead500 r,
        response := none }
  else .ok r

/-- Configured endpoint base (`OLLAMA_HOST` default, trailing `/` stripped). -/
def OLLAMA_HOST : String := "http://localhost:11434"

/-- Configured default model (`OLLAMA_MODEL` default). -/
def MODEL : String := "gpt-oss:20b-cloud"

/-- `_messages_to_prompt(messages)`: joined system content under a
`[System]` header when the joined text is nonempty, then `User:` /
`Assistant:` lines in order, ending with a bare `Assistant:` cue. -/
def messages_to_prompt (messages : List Message) : String :=
  let sys := pyJoin "\n"
    (messages.filterMap (fun m => if m.role = "system" then some m.content else none))
  let convo := messages.foldl
    (fun acc m =>
      if m.role = "user" then acc ++ ["User: " ++ m.content]
      else if m.role = "assistant" then acc ++ ["Assistant: " ++ m.content]
      else acc) []
  (if sys ≠ "" then "[System]\n" ++ sys ++ "\n\n" else "") ++ pyJoin "\n" (convo ++ ["Assistant:"])

/-- The options map `_chat` builds. -/
def optionsOf (temperature : ℚ) (json_mode : Bool) : ReqOptions :=
  { temperature := temperature, format := if json_mode then some "json" else none }

/-- The primary request: POST `<base>/api/chat`. -/
def chatRequestOf (messages : List Message) (model : Option String) (temperature : ℚ)
    (json_mode : Bool) : Request :=
  { url := OLLAMA_HOST ++ "/api/chat",
    payload := .chatP (model.getD MODEL) messages false (optionsOf temperature json_mode) }

/-- The fallback request: POST `<base>/api/generate` with the flattened prompt. -/
def genRequestOf (messages : List Message) (model : Option String) (temperature : ℚ)
    (json_mode : Bool) : Request :=
  { url := OLLAMA_HOST ++ "/api/generate",
    payload := .genP (model.getD MODEL) (messages_to_prompt messages) false
      (optionsOf temperature json_mode) }

/-- `_chat(messages, model, temperature, json_mode)`, returning the list of
network calls issued together with the outcome. The 404/501 test reads
`getattr(e.response, "status_code", None)` from the re-raised error. -/
def chat (backend : Backend) (messages : List Message) (model : Option String)
    (temperature : ℚ) (json_mode : Bool) :
    List Request × Except PyHTTPError JVal :=
  let req1 := chatRequestOf messages model temperature json_mode
  match post_json backend req1 with
  | .ok r => ([req1], .ok (extract_text_or_json r.jsonBody))
  | .error e =>
    let code : Option Nat := e.response.map (fun resp => resp.status)
    if ¬code = some 404 ∧ ¬code = some 501 then
      ([req1], .error e)
    else
      let req2 := genRequestOf messages model temperature json_mode
      match post_json backend req2 with
      | .ok r => ([req1, req2], .ok (extract_text_or_json r.jsonBody))
      | .error e2 => ([req1, req2], .error e2)

/-! ## Completeness of the parser on serializer output. -/

theorem dropWhile_head_false {α : Type} {p : α → Bool} :
    ∀ l : List α, (∀ c, l.head? = some c → p c = false) → l.dropWhile p = l := by
  intro l h
  cases l with
  | nil => rfl
  | cons a t => simp [List.dropWhile_cons, h a rfl]

theorem takeWhile_append_of {α : Type} {p : α → Bool} (xs ys : List α)
    (hx : ∀ c ∈ xs, p c = true) (hy : ∀ c, ys.head? = some c → p c = false) :
    (xs ++ ys).takeWhile p = xs := by
  induction xs with
  | nil =>
    cases ys with
    | nil => rfl
    | cons a t => simp [List.takeWhile_cons, hy a rfl]
  | cons a t ih =>
    simp only [List.cons_append, List.takeWhile_cons, hx a (by simp)]
    simp [ih (fun c hc => hx c (by simp [hc]))]

theorem dropWhile_append_of {α : Type} {p : α → Bool} (xs ys : List α)
    (hx : ∀ c ∈ xs, p c = true) (hy : ∀ c, ys.head? = some c → p c = false) :
    (xs ++ ys).dropWhile p = ys := by
  induction xs with
  | nil => exact dropWhile_head_false ys hy
  | cons a t ih =>
    simp only [List.cons_append, List.dropWhile_cons, hx a (by simp)]
    simp [ih (fun c hc => hx c (by simp [hc]))]

theorem digit_ne_of {c x : Char} (h : c.isDigit = true) (hx : x.isDigit = false) : ¬c = x := by
  intro he
  subst he
  rw [h] at hx
  exact Bool.noConfusion hx

theorem digitChars_all_digit : ∀ n, digitChars n ≠ [] ∧ ∀ c ∈ digitChars n, c.isDigit = true := by
  intro n
  induction n using Nat.strong_induction_on with
  | _ n ih =>
    rw [digitChars]
    by_cases h : n < 10
    · simp only [if_pos h]
      refine ⟨by simp, ?_⟩
      intro c hc
      simp at hc
      subst hc
      have : ∀ k, k < 10 → (digitChar k).isDigit = true := by decide
      exact this n h
    · simp only [if_neg h]
      have hd := ih (n / 10) (Nat.div_lt_self (by omega) (by omega))
      refine ⟨by simp [hd.1], ?_⟩
      intro c hc
      simp at hc
      rcases hc with hc | hc
      · exact hd.2 c hc
      · subst hc
        have : ∀ k, k < 10 → (digitChar k).isDigit = true := by decide
        exact this (n % 10) (Nat.mod_lt _ (by omega))

theorem foldDigits_append (xs : List Char) (x : Char) :
    foldDigits (xs ++ [x]) = 10 * foldDigits xs + (x.toNat - 48) := by
  simp [foldDigits, List.foldl_append]

theorem foldDigits_digitChars : ∀ n, foldDigits (digitChars n) = n := by
  intro n
  induction n using Nat.strong_induction_on with
  | _ n ih =>
    rw [digitChars]
    by_cases h : n < 10
    · simp only [if_pos h]
      have : ∀ k, k < 10 → foldDigits [digitChar k] = k := by decide
      exact this n h
    · simp only [if_neg h]
      rw [foldDigits_append, ih (n / 10) (Nat.div_lt_self (by omega) (by omega))]
      have : ∀ k, k < 10 → (digitChar k).toNat = 48 + k := by decide
      rw [this (n % 10) (Nat.mod_lt _ (by omega))]
      omega

theorem digitChars_head_nonzero :
    ∀ n, 1 ≤ n → ∃ c t, digitChars n = c :: t ∧ c.isDigit = true ∧ ¬c = '0' := by
  intro n
  induction n using Nat.strong_induction_on with
  | _ n ih =>
    intro hn
    rw [digitChars]
    by_cases h : n < 10
    · simp only [if_pos h]
      refine ⟨digitChar n, [], rfl, ?_, ?_⟩
      · have : ∀ k, k < 10 → (digitChar k).isDigit = true := by decide
        exact this n h
      · have : ∀ k, 1 ≤ k → k < 10 → ¬digitChar k = '0' := by decide
        exact this n hn h
    · simp only [if_neg h]
      obtain ⟨c, t, he, hd, hz⟩ :=
        ih (n / 10) (Nat.div_lt_self (by omega) (by omega)) (by omega)
      exact ⟨c, t ++ [digitChar (n % 10)], by simp [he], hd, hz⟩

/-- No digit, dot or exponent marker follows: a serialized number token is
parsed back without absorbing the continuation. -/
def numFollowOk (rest : List Char) : Prop :=
  ∀ c, rest.head? = some c →
    c.isDigit = false ∧ ¬c = '.' ∧ ¬c = 'e' ∧ ¬c = 'E' ∧ ¬c = '-'

theorem parseUInt_digitChars (n : Nat) (rest : List Char)
    (hrest : ∀ c, rest.head? = some c → c.isDigit = false) :
    parseUInt (digitChars n ++ rest) = some (n, rest) := by
  rcases Nat.eq_zero_or_pos n with rfl | hn
  · have h0 : digitChars 0 = ['0'] := by rw [digitChars]; simp [digitChar]
    rw [h0]
    simp [parseUInt]
  · obtain ⟨c, t, he, hd, hz⟩ := digitChars_head_nonzero n hn
    have hall := (digitChars_all_digit n).2
    rw [he]
    simp only [List.cons_append, parseUInt, if_neg hz, if_pos hd]
    have ht : ∀ x ∈ t, x.isDigit = true := fun x hx => hall x (by simp [he, hx])
    rw [takeWhile_append_of t rest ht hrest, dropWhile_append_of t rest ht hrest]
    have : foldDigits (c :: t) = n := by rw [← he]; exact foldDigits_digitChars n
    simp [this]

theorem parseNumTok_intChars (n : Int) (rest : List Char) (h : numFollowOk rest) :
    parseNumTok (intChars n ++ rest) = some (.num n, rest) := by
  have hdig : ∀ c, rest.head? = some c → c.isDigit = false := fun c hc => (h c hc).1
  have hrest3 : ¬(rest.head? = some '.' ∨ rest.head? = some 'e' ∨ rest.head? = some 'E') := by
    rintro (hc | hc | hc)
    · exact (h _ hc).2.1 rfl
    · exact (h _ hc).2.2.1 rfl
    · exact (h _ hc).2.2.2.1 rfl
  rw [intChars]
  by_cases hneg : n < 0
  · simp only [if_pos hneg, List.cons_append]
    have hu := parseUInt_digitChars n.natAbs rest hdig
    simp only [parseNumTok, List.head?_cons, List.tail_cons]
    rw [if_pos trivial, hu]
    have : -(n.natAbs : Int) = n := by omega
    simp [this, hrest3]
    rw [abs_of_neg hneg, neg_neg]
  · simp only [if_neg hneg]
    obtain ⟨c, t, he, hd, -⟩ :
        ∃ c t, digitChars n.natAbs = c :: t ∧ c.isDigit = true ∧ True := by
      rcases Nat.eq_zero_or_pos n.natAbs with h0 | h1
      · rw [h0, digitChars]
        exact ⟨digitChar 0, [], by simp, by decide, trivial⟩
      · obtain ⟨c, t, he, hd, -⟩ := digitChars_head_nonzero _ h1
        exact ⟨c, t, he, hd, trivial⟩
    have hu := parseUInt_digitChars n.natAbs rest hdig
    rw [he] at hu ⊢
    have hcm : ¬c = '-' := digit_ne_of hd (by decide)
    simp only [List.cons_append] at hu
    simp only [parseNumTok, List.cons_append, List.head?_cons]
    rw [if_neg (by simp [hcm]), hu]
    have : ((n.natAbs : Int)) = n := by omega
    simp [this, hrest3]

theorem hexVal_hexDigitChar : ∀ k, k < 16 → hexVal? (hexDigitChar k) = some k := by decide


theorem parseStringBody_escList :
    ∀ (cs rest : List Char), parseStringBody (escList cs ++ '"' :: rest) = some (cs, rest) := by
  intro cs
  induction cs with
  | nil =>
    intro rest
    rw [escList, List.nil_append, parseStringBody.eq_def]
    simp
  | cons c cs ih =>
    intro rest
    rw [escList, List.append_assoc]
    by_cases h1 : c = '"'
    · subst h1; rw [escChar]; simp only [reduceIte, List.cons_append, List.nil_append]
      rw [parseStringBody.eq_def]; simp [ih rest]
    · by_cases h2 : c = '\\'
      · subst h2; rw [escChar]; simp only [reduceIte, List.cons_append, List.nil_append]
        rw [parseStringBody.eq_def]; simp [ih rest]
      · by_cases h3 : c = '\n'
        · subst h3; rw [escChar]; simp only [reduceIte, List.cons_append, List.nil_append]
          rw [parseStringBody.eq_def]; simp [ih rest]
        · by_cases h4 : c = '\t'
          · subst h4; rw [escChar]; simp only [reduceIte, List.cons_append, List.nil_append]
            rw [parseStringBody.eq_def]; simp [ih rest]
          · by_cases h5 : c = '\r'
            · subst h5; rw [escChar]; simp only [reduceIte, List.cons_append, List.nil_append]
              rw [parseStringBody.eq_def]; simp [ih rest]
            · by_cases h6 : c = '\x08'
              · subst h6; rw [escChar]; simp only [reduceIte, List.cons_append, List.nil_append]
                rw [parseStringBody.eq_def]; simp [ih rest]
              · by_cases h7 : c = '\x0c'
                · subst h7; rw [escChar]; simp only [reduceIte, List.cons_append, List.nil_append]
                  rw [parseStringBody.eq_def]; simp [ih rest]
                · by_cases h8 : c.toNat < 32
                  · rw [escChar, if_neg h1, if_neg h2, if_neg h3, if_neg h4, if_neg h5,
                      if_neg h6, if_neg h7, if_pos h8]
                    simp only [List.cons_append, List.nil_append]
                    rw [parseStringBody.eq_def]
                    have e1 : hexVal? '0' = some 0 := by decide
                    have e2 := hexVal_hexDigitChar (c.toNat / 16) (by omega)
                    have e3 := hexVal_hexDigitChar (c.toNat % 16) (by omega)
                    simp only [reduceIte, e1, e2, e3]
                    have hn : ((0 * 16 + 0) * 16 + c.toNat / 16) * 16 + c.toNat % 16
                        = c.toNat := by omega
                    rw [hn]
                    have hs : ¬(55296 ≤ c.toNat ∧ c.toNat < 57344) := by omega
                    rw [if_neg hs]
                    simp [ih rest, Char.ofNat_toNat]
                  · rw [escChar, if_neg h1, if_neg h2, if_neg h3, if_neg h4, if_neg h5,
                      if_neg h6, if_neg h7, if_neg h8]
                    simp only [List.cons_append, List.nil_append]
                    rw [parseStringBody.eq_def]
                    simp [h1, h2, h8, ih rest]

/-- Characters that can open a serialized JSON value. -/
def goodHead (c : Char) : Prop :=
  c = '-' ∨ c.isDigit = true ∨ c = 'n' ∨ c = 't' ∨ c = 'f' ∨ c = '"' ∨ c = '[' ∨ c = '\x7b'

theorem goodHead_facts {c : Char} (h : goodHead c) :
    isJsonWs c = false ∧ isPyWs c = false ∧ ¬c = ']' ∧ ¬c = '\x7d' ∧ ¬c = btick := by
  have hd : c.isDigit = true → isJsonWs c = false ∧ isPyWs c = false ∧
      ¬c = ']' ∧ ¬c = '\x7d' ∧ ¬c = btick := by
    intro hdig
    refine ⟨?_, ?_, digit_ne_of hdig (by decide), digit_ne_of hdig (by decide),
      digit_ne_of hdig (by decide)⟩
    · by_contra hw
      simp only [Bool.not_eq_false, isJsonWs, decide_eq_true_eq] at hw
      rcases hw with rfl | rfl | rfl | rfl <;> exact Bool.noConfusion hdig
    · by_contra hw
      simp only [Bool.not_eq_false, isPyWs, decide_eq_true_eq] at hw
      rcases hw with rfl | rfl | rfl | rfl | rfl | rfl <;> exact Bool.noConfusion hdig
  rcases h with rfl | h | rfl | rfl | rfl | rfl | rfl | rfl
  · exact ⟨by decide, by decide, by decide, by decide, by decide⟩
  · exact hd h
  all_goals exact ⟨by decide, by decide, by decide, by decide, by decide⟩

theorem digitChars_last_digit : ∀ n, ∃ c, (digitChars n).getLast? = some c ∧ c.isDigit = true := by
  intro n
  induction n using Nat.strong_induction_on with
  | _ n ih =>
    rw [digitChars]
    by_cases h : n < 10
    · simp only [if_pos h]
      refine ⟨digitChar n, by simp, ?_⟩
      have : ∀ k, k < 10 → (digitChar k).isDigit = true := by decide
      exact this n h
    · simp only [if_neg h]
      refine ⟨digitChar (n % 10), by simp [List.getLast?_concat], ?_⟩
      have : ∀ k, k < 10 → (digitChar k).isDigit = true := by decide
      exact this (n % 10) (Nat.mod_lt _ (by omega))

theorem dChars_head : ∀ v : JVal, ∃ c t, dChars v = c :: t ∧ goodHead c := by
  intro v
  cases v with
  | null => exact ⟨'n', _, by rw [dChars], by simp [goodHead]⟩
  | bool b =>
    cases b
    · exact ⟨'f', _, by rw [dChars], by simp [goodHead]⟩
    · exact ⟨'t', _, by rw [dChars], by simp [goodHead]⟩
  | num n =>
    rw [dChars, intChars]
    by_cases h : n < 0
    · exact ⟨'-', _, by rw [if_pos h], by simp [goodHead]⟩
    · rw [if_neg h]
      obtain ⟨hne, hall⟩ := digitChars_all_digit n.natAbs
      rcases he : digitChars n.natAbs with _ | ⟨c, t⟩
      · exact absurd he hne
      · exact ⟨c, t, rfl, Or.inr (Or.inl (hall c (by rw [he]; simp)))⟩
  | str s => exact ⟨'"', _, by rw [dChars, strChars], by simp [goodHead]⟩
  | arr xs =>
    cases xs with
    | nil => exact ⟨'[', _, by rw [dChars], by simp [goodHead]⟩
    | cons x xs => exact ⟨'[', _, by rw [dChars], by simp [goodHead]⟩
  | obj kvs =>
    cases kvs with
    | nil => exact ⟨'\x7b', _, by rw [dChars], by simp [goodHead]⟩
    | cons kv kvs => exact ⟨'\x7b', _, by rw [dChars], by simp [goodHead]⟩

/-- Characters that can close a serialized JSON value. -/
def goodLast (c : Char) : Prop :=
  c.isDigit = true ∨ c = 'l' ∨ c = 'e' ∨ c = '"' ∨ c = ']' ∨ c = '\x7d'

theorem goodLast_facts {c : Char} (h : goodLast c) : isPyWs c = false ∧ ¬c = btick := by
  have hd : c.isDigit = true → isPyWs c = false ∧ ¬c = btick := by
    intro hdig
    refine ⟨?_, digit_ne_of hdig (by decide)⟩
    by_contra hw
    simp only [Bool.not_eq_false, isPyWs, decide_eq_true_eq] at hw
    rcases hw with rfl | rfl | rfl | rfl | rfl | rfl <;> exact Bool.noConfusion hdig
  rcases h with h | rfl | rfl | rfl | rfl | rfl
  · exact hd h
  all_goals exact ⟨by decide, by decide⟩

theorem dChars_last : ∀ v : JVal, ∃ c, (dChars v).getLast? = some c ∧ goodLast c := by
  intro v
  cases v with
  | null => exact ⟨'l', by rw [dChars]; rfl, by simp [goodLast]⟩
  | bool b =>
    cases b
    all_goals exact ⟨'e', by rw [dChars]; rfl, by simp [goodLast]⟩
  | num n =>
    rw [dChars, intChars]
    obtain ⟨c, hc, hdig⟩ := digitChars_last_digit n.natAbs
    by_cases h : n < 0
    · rw [if_pos h]
      refine ⟨c, ?_, Or.inl hdig⟩
      rcases he : digitChars n.natAbs with _ | ⟨d, t⟩
      · exact absurd he (digitChars_all_digit n.natAbs).1
      · rw [he] at hc; simp [hc]
    · rw [if_neg h]; exact ⟨c, hc, Or.inl hdig⟩
  | str s =>
    refine ⟨'"', ?_, by simp [goodLast]⟩
    rw [dChars, strChars, ← List.cons_append, List.getLast?_concat]
  | arr xs =>
    cases xs with
    | nil => exact ⟨']', by rw [dChars]; rfl, by simp [goodLast]⟩
    | cons x t =>
      refine ⟨']', ?_, by simp [goodLast]⟩
      rw [dChars, ← List.cons_append, List.getLast?_concat]
  | obj kvs =>
    cases kvs with
    | nil => exact ⟨'\x7d', by rw [dChars]; rfl, by simp [goodLast]⟩
    | cons kv t =>
      refine ⟨'\x7d', ?_, by simp [goodLast]⟩
      rw [dChars, ← List.cons_append, List.getLast?_concat]

mutual
/-- An upper bound on the parser recursion depth needed for a serialized value. -/
def Jfuel : JVal → Nat
  | .null => 1
  | .bool _ => 1
  | .num _ => 1
  | .str _ => 1
  | .arr [] => 1
  | .arr (x :: xs) => 1 + JfuelElems x xs
  | .obj [] => 1
  | .obj (kv :: kvs) => 1 + JfuelPairs kv kvs
termination_by v => sizeOf v
decreasing_by all_goals (simp_wf <;> omega)

/-- Depth bound for a nonempty serialized element list. -/
def JfuelElems : JVal → List JVal → Nat
  | x, [] => 1 + Jfuel x
  | x, y :: ys => 1 + Jfuel x + JfuelElems y ys
termination_by x xs => 1 + sizeOf x + sizeOf xs
decreasing_by all_goals (simp_wf <;> omega)

/-- Depth bound for a nonempty serialized pair list. -/
def JfuelPairs : String × JVal → List (String × JVal) → Nat
  | (_, v), [] => 1 + Jfuel v
  | (_, v), p :: ps => 1 + Jfuel v + JfuelPairs p ps
termination_by kv ps => 1 + sizeOf kv + sizeOf ps
decreasing_by all_goals (simp_wf <;> omega)
end

theorem dChars_length_pos (v : JVal) : 1 ≤ (dChars v).length := by
  obtain ⟨c, t, he, -⟩ := dChars_head v
  simp [he]

theorem JfuelElems_le (xs : List JVal) :
    ∀ x, (∀ z ∈ x :: xs, Jfuel z ≤ 2 * (dChars z).length) →
    JfuelElems x xs ≤ 2 * (seqChars x xs).length + 1 := by
  induction xs with
  | nil =>
    intro x hx
    rw [JfuelElems, seqChars]
    have := hx x (by simp)
    omega
  | cons y ys ih =>
    intro x hx
    rw [JfuelElems, seqChars]
    have h1 := hx x (by simp)
    have h2 := ih y (fun z hz => hx z (by simp at hz ⊢; tauto))
    have h3 := dChars_length_pos x
    simp only [List.length_append, List.length_cons]
    omega

theorem JfuelPairs_le (ps : List (String × JVal)) :
    ∀ kv, (∀ z ∈ kv :: ps, Jfuel z.2 ≤ 2 * (dChars z.2).length) →
    JfuelPairs kv ps ≤ 2 * (pairSeqChars kv ps).length + 1 := by
  induction ps with
  | nil =>
    intro kv hx
    rw [JfuelPairs, pairSeqChars]
    have := hx kv (by simp)
    rcases kv with ⟨k, v⟩
    rw [pairChars]
    simp only [List.length_append, List.length_cons]
    simp at this
    omega
  | cons p ps ih =>
    intro kv hx
    rw [JfuelPairs, pairSeqChars]
    have h1 := hx kv (by simp)
    have h2 := ih p (fun z hz => hx z (by simp at hz ⊢; tauto))
    rcases kv with ⟨k, v⟩
    rw [pairChars]
    simp only [List.length_append, List.length_cons]
    simp at h1
    omega

theorem Jfuel_le_length : ∀ v : JVal, Jfuel v ≤ 2 * (dChars v).length := by
  have main : ∀ n, ∀ v : JVal, sizeOf v ≤ n → Jfuel v ≤ 2 * (dChars v).length := by
    intro n
    induction n with
    | zero => intro v h; cases v <;> simp at h
    | succ n ih =>
      intro v hv
      cases v with
      | null => rw [Jfuel, dChars]; simp
      | bool b => cases b <;> (rw [Jfuel, dChars]; simp)
      | num m =>
        rw [Jfuel]
        have := dChars_length_pos (.num m)
        omega
      | str s =>
        rw [Jfuel]
        have := dChars_length_pos (.str s)
        omega
      | arr xs =>
        cases xs with
        | nil => rw [Jfuel, dChars]; simp
        | cons x t =>
          rw [Jfuel, dChars]
          have hmem : ∀ z ∈ x :: t, Jfuel z ≤ 2 * (dChars z).length := by
            intro z hz
            refine ih z ?_
            have h1 : sizeOf z < sizeOf (x :: t) := List.sizeOf_lt_of_mem hz
            have h2 : sizeOf (JVal.arr (x :: t)) = 1 + sizeOf (x :: t) := by simp
            omega
          have := JfuelElems_le t x hmem
          simp only [List.length_cons, List.length_append]
          omega
      | obj kvs =>
        cases kvs with
        | nil => rw [Jfuel, dChars]; simp
        | cons kv t =>
          rw [Jfuel, dChars]
          have hmem : ∀ z ∈ kv :: t, Jfuel z.2 ≤ 2 * (dChars z.2).length := by
            intro z hz
            refine ih z.2 ?_
            have h1 : sizeOf z < sizeOf (kv :: t) := List.sizeOf_lt_of_mem hz
            have h2 : sizeOf (JVal.obj (kv :: t)) = 1 + sizeOf (kv :: t) := by simp
            have h3 : sizeOf z.2 < sizeOf z := by
              rcases z with ⟨a, b⟩
              simp
            omega
          have := JfuelPairs_le t kv hmem
          simp only [List.length_cons, List.length_append]
          omega
  exact fun v => main (sizeOf v) v le_rfl

theorem numFollowOk_nil : numFollowOk [] := by
  intro c hc
  simp at hc

theorem numFollowOk_of_head {c : Char} (t : List Char)
    (h : c.isDigit = false ∧ ¬c = '.' ∧ ¬c = 'e' ∧ ¬c = 'E' ∧ ¬c = '-') :
    numFollowOk (c :: t) := by
  intro d hd
  simp only [List.head?_cons, Option.some_inj] at hd
  subst hd
  exact h

theorem seqChars_head (y : JVal) (ys : List JVal) :
    ∃ c t, seqChars y ys = c :: t ∧ goodHead c := by
  obtain ⟨c, t, he, hg⟩ := dChars_head y
  cases ys with
  | nil => exact ⟨c, t, by rw [seqChars, he], hg⟩
  | cons z zs => exact ⟨c, t ++ ',' :: ' ' :: seqChars z zs, by rw [seqChars, he]; rfl, hg⟩

/-- The statement of parser completeness on serializer output for one value. -/
def ParseOK (v : JVal) : Prop :=
  ∀ fuel rest, Jfuel v ≤ fuel → numFollowOk rest →
    parseValF fuel (dChars v ++ rest) = some (v, rest)

theorem skipWs_not (c : Char) (t : List Char) (h : isJsonWs c = false) :
    skipWs (c :: t) = c :: t := by
  rw [skipWs, List.dropWhile_cons, h]
  simp

theorem parseElems_complete (xs : List JVal) :
    ∀ x, (∀ z ∈ x :: xs, ParseOK z) →
    ∀ fuel rest, JfuelElems x xs ≤ fuel →
    parseElemsF fuel (seqChars x xs ++ ']' :: rest) = some (x :: xs, rest) := by
  induction xs with
  | nil =>
    intro x hx fuel rest hf
    rw [JfuelElems] at hf
    cases fuel with
    | zero => omega
    | succ f =>
      rw [seqChars]
      have hfollow : numFollowOk (']' :: rest) :=
        numFollowOk_of_head rest (by decide)
      have hpv := hx x (by simp) f (']' :: rest) (by omega) hfollow
      have hws := skipWs_not ']' rest (by decide)
      simp only [parseElemsF]
      rw [hpv]
      simp [hws]
  | cons y ys ih =>
    intro x hx fuel rest hf
    rw [JfuelElems] at hf
    cases fuel with
    | zero => omega
    | succ f =>
      rw [seqChars]
      have hshape : (dChars x ++ ',' :: ' ' :: seqChars y ys) ++ ']' :: rest
          = dChars x ++ (',' :: ' ' :: (seqChars y ys ++ ']' :: rest)) := by
        simp
      rw [hshape]
      have hfollow : numFollowOk (',' :: ' ' :: (seqChars y ys ++ ']' :: rest)) :=
        numFollowOk_of_head _ (by decide)
      have hpv := hx x (by simp) f _ (by omega) hfollow
      have hws1 := skipWs_not ',' (' ' :: (seqChars y ys ++ ']' :: rest)) (by decide)
      obtain ⟨c, t, hseq, hgood⟩ := seqChars_head y ys
      have hws2 : skipWs (' ' :: (seqChars y ys ++ ']' :: rest))
          = seqChars y ys ++ ']' :: rest := by
        rw [skipWs, List.dropWhile_cons]
        norm_num
        rw [hseq, List.cons_append, ← skipWs]
        exact skipWs_not c (t ++ ']' :: rest) (goodHead_facts hgood).1
      have hrec := ih y (fun z hz => hx z (by simp at hz ⊢; tauto)) f rest (by omega)
      simp only [parseElemsF]
      rw [hpv]
      simp only [hws1, hws2, hrec]

theorem pairChars_shape (k : String) (v : JVal) (tail : List Char) :
    pairChars (k, v) ++ tail
      = '"' :: (escList k.data ++ '"' :: ':' :: ' ' :: (dChars v ++ tail)) := by
  rw [pairChars, strChars]
  simp

theorem pairSeqChars_head (kv : String × JVal) (ps : List (String × JVal)) :
    ∃ t, pairSeqChars kv ps = '"' :: t := by
  rcases kv with ⟨k, v⟩
  cases ps with
  | nil =>
    refine ⟨escList k.data ++ '"' :: ':' :: ' ' :: dChars v, ?_⟩
    rw [pairSeqChars, pairChars, strChars]
    simp
  | cons p t =>
    refine ⟨(escList k.data ++ '"' :: ':' :: ' ' :: dChars v)
      ++ ',' :: ' ' :: pairSeqChars p t, ?_⟩
    rw [pairSeqChars, pairChars, strChars]
    simp

theorem parsePairs_complete (ps : List (String × JVal)) :
    ∀ kv, (∀ z ∈ kv :: ps, ParseOK z.2) →
    ∀ fuel rest, JfuelPairs kv ps ≤ fuel →
    parsePairsF fuel (pairSeqChars kv ps ++ '\x7d' :: rest) = some (kv :: ps, rest) := by
  induction ps with
  | nil =>
    intro kv hx fuel rest hf
    rcases kv with ⟨k, v⟩
    rw [JfuelPairs] at hf
    cases fuel with
    | zero => omega
    | succ f =>
      rw [pairSeqChars, pairChars_shape]
      have hfollow : numFollowOk ('\x7d' :: rest) :=
        numFollowOk_of_head rest (by decide)
      have hpv : parseValF f (dChars v ++ '\x7d' :: rest) = some (v, '\x7d' :: rest) :=
        hx (k, v) (by simp) f ('\x7d' :: rest) (by show Jfuel v ≤ f; omega) hfollow
      have hkey := parseStringBody_escList k.data (':' :: ' ' :: (dChars v ++ '\x7d' :: rest))
      have hws1 := skipWs_not ':' (' ' :: (dChars v ++ '\x7d' :: rest)) (by decide)
      obtain ⟨c, t, hdc, hgood⟩ := dChars_head v
      have hws2 : skipWs (' ' :: (dChars v ++ '\x7d' :: rest)) = dChars v ++ '\x7d' :: rest := by
        rw [skipWs, List.dropWhile_cons]
        norm_num
        rw [hdc, List.cons_append, ← skipWs]
        exact skipWs_not c (t ++ '\x7d' :: rest) (goodHead_facts hgood).1
      have hws3 := skipWs_not '\x7d' rest (by decide)
      simp only [parsePairsF]
      rw [hkey]
      simp only [hws1, hws2]
      rw [hpv]
      simp only [hws3]
  | cons p ps ih =>
    intro kv hx fuel rest hf
    rcases kv with ⟨k, v⟩
    rw [JfuelPairs] at hf
    cases fuel with
    | zero => omega
    | succ f =>
      rw [pairSeqChars]
      have hshape : (pairChars (k, v) ++ ',' :: ' ' :: pairSeqChars p ps) ++ '\x7d' :: rest
          = pairChars (k, v) ++ (',' :: ' ' :: (pairSeqChars p ps ++ '\x7d' :: rest)) := by
        simp
      rw [hshape, pairChars_shape]
      have hfollow : numFollowOk (',' :: ' ' :: (pairSeqChars p ps ++ '\x7d' :: rest)) :=
        numFollowOk_of_head _ (by decide)
      have hpv : parseValF f (dChars v ++ ',' :: ' ' :: (pairSeqChars p ps ++ '\x7d' :: rest))
          = some (v, ',' :: ' ' :: (pairSeqChars p ps ++ '\x7d' :: rest)) :=
        hx (k, v) (by simp) f _ (by show Jfuel v ≤ f; omega) hfollow
      have hkey := parseStringBody_escList k.data
        (':' :: ' ' :: (dChars v ++ ',' :: ' ' :: (pairSeqChars p ps ++ '\x7d' :: rest)))
      have hws1 := skipWs_not ':'
        (' ' :: (dChars v ++ ',' :: ' ' :: (pairSeqChars p ps ++ '\x7d' :: rest))) (by decide)
      obtain ⟨c, t, hdc, hgood⟩ := dChars_head v
      have hws2 : skipWs (' ' :: (dChars v ++ ',' :: ' ' :: (pairSeqChars p ps ++ '\x7d' :: rest)))
          = dChars v ++ ',' :: ' ' :: (pairSeqChars p ps ++ '\x7d' :: rest) := by
        rw [skipWs, List.dropWhile_cons]
        norm_num
        rw [hdc, List.cons_append, ← skipWs]
        exact skipWs_not c _ (goodHead_facts hgood).1
      have hws3 := skipWs_not ','
        (' ' :: (pairSeqChars p ps ++ '\x7d' :: rest)) (by decide)
      obtain ⟨pt, hpt⟩ := pairSeqChars_head p ps
      have hws4 : skipWs (' ' :: (pairSeqChars p ps ++ '\x7d' :: rest))
          = pairSeqChars p ps ++ '\x7d' :: rest := by
        rw [skipWs, List.dropWhile_cons]
        norm_num
        rw [hpt, List.cons_append, ← skipWs]
        exact skipWs_not '"' _ (by decide)
      have hrec := ih p (fun z hz => hx z (by simp at hz ⊢; tauto)) f rest (by omega)
      simp only [parsePairsF]
      rw [hkey]
      simp only [hws1, hws2]
      rw [hpv]
      simp only [hws3, hws4, hrec]

theorem intChars_head (n : Int) : ∃ c t, intChars n = c :: t ∧ (c = '-' ∨ c.isDigit = true) := by
  rw [intChars]
  by_cases h : n < 0
  · exact ⟨'-', _, by rw [if_pos h], Or.inl rfl⟩
  · rw [if_neg h]
    obtain ⟨hne, hall⟩ := digitChars_all_digit n.natAbs
    rcases he : digitChars n.natAbs with _ | ⟨c, t⟩
    · exact absurd he hne
    · exact ⟨c, t, rfl, Or.inr (hall c (by rw [he]; simp))⟩

theorem numHead_ne {c : Char} (hc : c = '-' ∨ c.isDigit = true) :
    ¬c = 'n' ∧ ¬c = 't' ∧ ¬c = 'f' ∧ ¬c = '"' ∧ ¬c = '[' ∧ ¬c = '\x7b' := by
  rcases hc with rfl | hd
  · exact ⟨by decide, by decide, by decide, by decide, by decide, by decide⟩
  · exact ⟨digit_ne_of hd (by decide), digit_ne_of hd (by decide), digit_ne_of hd (by decide),
      digit_ne_of hd (by decide), digit_ne_of hd (by decide), digit_ne_of hd (by decide)⟩

theorem parse_dumps : ∀ v : JVal, ParseOK v := by
  have main : ∀ n, ∀ v : JVal, sizeOf v ≤ n → ParseOK v := by
    intro n
    induction n with
    | zero => intro v h; cases v <;> simp at h
    | succ n ih =>
      intro v hv fuel rest hfuel hrest
      cases v with
      | null =>
        rw [Jfuel] at hfuel
        cases fuel with
        | zero => omega
        | succ f =>
          rw [dChars]
          simp [parseValF]
      | bool b =>
        rw [Jfuel] at hfuel
        cases fuel with
        | zero => omega
        | succ f =>
          cases b <;> (rw [dChars]; simp [parseValF])
      | num m =>
        rw [Jfuel] at hfuel
        cases fuel with
        | zero => omega
        | succ f =>
          rw [dChars]
          obtain ⟨c, t, he, hc⟩ := intChars_head m
          obtain ⟨n1, n2, n3, n4, n5, n6⟩ := numHead_ne hc
          rw [he, List.cons_append]
          simp only [parseValF]
          rw [if_neg n1, if_neg n2, if_neg n3, if_neg n4, if_neg n5, if_neg n6,
            ← List.cons_append, ← he]
          exact parseNumTok_intChars m rest hrest
      | str s =>
        rw [Jfuel] at hfuel
        cases fuel with
        | zero => omega
        | succ f =>
          rw [dChars, strChars]
          have hshape : ('"' :: (escList s.data ++ ['"'])) ++ rest
              = '"' :: (escList s.data ++ '"' :: rest) := by simp
          rw [hshape]
          simp only [parseValF]
          norm_num
          rw [parseStringBody_escList s.data rest]
          rfl
      | arr xs =>
        cases xs with
        | nil =>
          rw [Jfuel] at hfuel
          cases fuel with
          | zero => omega
          | succ f =>
            rw [dChars]
            have hws := skipWs_not ']' rest (by decide)
            simp only [parseValF]
            norm_num
            simp [hws]
        | cons x t =>
          rw [Jfuel] at hfuel
          cases fuel with
          | zero => omega
          | succ f =>
            rw [dChars]
            have hshape : ('[' :: (seqChars x t ++ [']'])) ++ rest
                = '[' :: (seqChars x t ++ ']' :: rest) := by simp
            rw [hshape]
            obtain ⟨c, ct, hseq, hgood⟩ := seqChars_head x t
            have hws : skipWs (seqChars x t ++ ']' :: rest) = seqChars x t ++ ']' :: rest := by
              rw [hseq, List.cons_append]
              exact skipWs_not c _ (goodHead_facts hgood).1
            have hmem : ∀ z ∈ x :: t, ParseOK z := by
              intro z hz
              refine ih z ?_
              have h1 : sizeOf z < sizeOf (x :: t) := List.sizeOf_lt_of_mem hz
              have h2 : sizeOf (JVal.arr (x :: t)) = 1 + sizeOf (x :: t) := by simp
              omega
            have hrec := parseElems_complete t x hmem f rest (by omega)
            simp only [parseValF]
            norm_num
            rw [hws]
            have hne : ¬(seqChars x t ++ ']' :: rest).head? = some ']' := by
              rw [hseq, List.cons_append]
              simp
              intro hcc
              exact absurd hcc (goodHead_facts hgood).2.2.1
            rw [if_neg hne, hrec]
            rfl
      | obj kvs =>
        cases kvs with
        | nil =>
          rw [Jfuel] at hfuel
          cases fuel with
          | zero => omega
          | succ f =>
            rw [dChars]
            have hws := skipWs_not '\x7d' rest (by decide)
            simp only [parseValF]
            norm_num
            simp [hws]
        | cons kv t =>
          rw [Jfuel] at hfuel
          cases fuel with
          | zero => omega
          | succ f =>
            rw [dChars]
            have hshape : ('\x7b' :: (pairSeqChars kv t ++ ['\x7d'])) ++ rest
                = '\x7b' :: (pairSeqChars kv t ++ '\x7d' :: rest) := by simp
            rw [hshape]
            obtain ⟨pt, hpt⟩ := pairSeqChars_head kv t
            have hws : skipWs (pairSeqChars kv t ++ '\x7d' :: rest)
                = pairSeqChars kv t ++ '\x7d' :: rest := by
              rw [hpt, List.cons_append]
              exact skipWs_not '"' _ (by decide)
            have hmem : ∀ z ∈ kv :: t, ParseOK z.2 := by
              intro z hz
              refine ih z.2 ?_
              have h1 : sizeOf z < sizeOf (kv :: t) := List.sizeOf_lt_of_mem hz
              have h2 : sizeOf (JVal.obj (kv :: t)) = 1 + sizeOf (kv :: t) := by simp
              have h3 : sizeOf z.2 < sizeOf z := by
                rcases z with ⟨a, b⟩
                simp
              omega
            have hrec := parsePairs_complete t kv hmem f rest (by omega)
            simp only [parseValF]
            norm_num
            rw [hws]
            have hne : ¬(pairSeqChars kv t ++ '\x7d' :: rest).head? = some '\x7d' := by
              rw [hpt, List.cons_append]
              simp
            rw [if_neg hne, hrec]
            rfl
  exact fun v => main (sizeOf v) v le_rfl

theorem loadsL_dChars (v : JVal) : loadsL (dChars v) = some v := by
  obtain ⟨c, t, he, hgood⟩ := dChars_head v
  have hws : skipWs (dChars v) = dChars v := by
    rw [he]
    exact skipWs_not c t (goodHead_facts hgood).1
  have hp := parse_dumps v (2 * (dChars v).length + 2) [] (by
      have := Jfuel_le_length v
      omega) numFollowOk_nil
  rw [List.append_nil] at hp
  rw [loadsL]
  simp only [hws, hp]
  simp [skipWs]

/-- `json.loads(json.dumps(v))` recovers `v` on the embedded domain. -/
theorem loads_dumps (v : JVal) : loads (dumps v) = some v := loadsL_dChars v

theorem pyStripL_noop (l : List Char) (hh : ∀ c, l.head? = some c → isPyWs c = false)
    (hl : ∀ c, l.getLast? = some c → isPyWs c = false) : pyStripL l = l := by
  rw [pyStripL, dropWhile_head_false l hh,
    dropWhile_head_false l.reverse (fun c hc => hl c (by rwa [List.head?_reverse] at hc))]
  exact List.reverse_reverse l

theorem trailingFence_noop (l : List Char)
    (hl : ∀ c, l.getLast? = some c → ¬c = btick) : trailingFence l = l := by
  unfold trailingFence
  split
  · next b1 b2 b3 r heq =>
    have hb1 : l.getLast? = some b1 := by
      rw [← List.head?_reverse, heq]
      rfl
    rw [if_neg]
    intro hc
    exact hl b1 hb1 hc.1
  · rfl

theorem stripFencesL_noop (l : List Char) (hh : ∀ c, l.head? = some c → ¬c = btick)
    (hl : ∀ c, l.getLast? = some c → ¬c = btick) : stripFencesL l = l := by
  have ht := trailingFence_noop l hl
  unfold stripFencesL
  split
  · rw [if_neg (fun hc => hh _ rfl hc.1)]
    exact ht
  · exact ht

theorem candidateOf_dumps (v : JVal) : candidateOf (dumps v) = dChars v := by
  obtain ⟨c, t, he, hgood⟩ := dChars_head v
  obtain ⟨d, hd, hlast⟩ := dChars_last v
  have hh : (dChars v).head? = some c := by rw [he]; rfl
  rw [candidateOf]
  have h1 : pyStripL (dumps v).data = dChars v := by
    refine pyStripL_noop _ ?_ ?_
    · intro x hx
      rw [show (dumps v).data = dChars v from rfl, hh] at hx
      simp at hx
      subst hx
      exact (goodHead_facts hgood).2.1
    · intro x hx
      rw [show (dumps v).data = dChars v from rfl, hd] at hx
      simp at hx
      subst hx
      exact (goodLast_facts hlast).1
  rw [h1]
  refine stripFencesL_noop _ ?_ ?_
  · intro x hx
    rw [hh] at hx
    simp at hx
    subst hx
    exact (goodHead_facts hgood).2.2.2.2
  · intro x hx
    rw [hd] at hx
    simp at hx
    subst hx
    exact (goodLast_facts hlast).2

/-- Round trip of `_coerce_json` over serialized values: the candidate is
untouched by stripping and fences, and the direct parse succeeds. -/
theorem coerceStr_dumps (v : JVal) : coerceStr (dumps v) = .ok v := by
  rw [coerceStr]
  simp only [candidateOf_dumps, loadsL_dChars]

/-! ## Facts about normalization (`_extract_from_harmony_message`,
`_extract_text_or_json`). -/

theorem dumps_ne_empty (v : JVal) : ¬dumps v = "" := by
  obtain ⟨c, t, he, -⟩ := dChars_head v
  rw [dumps, he]
  intro h
  have := congrArg String.data h
  simp at this

theorem pyTruthy_dumps (v : JVal) : pyTruthy (.str (dumps v)) = true := by
  simp [pyTruthy, dumps_ne_empty v]

theorem harmonyScan_fst_append (pre : List JVal) (blk : JVal) (post : List JVal) (jv : JVal)
    (hpre : ∀ b ∈ pre, headJsonOf b = none) (hblk : headJsonOf blk = some jv) :
    (harmonyScan (pre ++ blk :: post)).1 = some jv := by
  induction pre with
  | nil =>
    rw [List.nil_append, harmonyScan]
    simp [hblk]
  | cons p ps ih =>
    rw [List.cons_append, harmonyScan]
    simp only [hpre p (by simp)]
    exact ih (fun b hb => hpre b (by simp [hb]))

theorem harmonyScan_forall2 (parts : List JVal) (ss : List String)
    (h : List.Forall₂ (fun part s => headJsonOf part = none ∧ headTextsOf part = [s]) parts ss) :
    harmonyScan parts = (none, ss) := by
  induction h with
  | nil => rfl
  | cons hps hrest ih =>
    rw [harmonyScan, ih, hps.1, hps.2]
    simp

/-- Whether a possibly-absent field value can only leak a string out of the
`a or b or ""` fallthrough: it is absent, falsy, or a string. -/
def fieldOkB : Option JVal → Bool
  | none => true
  | some v => !pyTruthy v || isStrJ v

/-- The payload shapes for which normalization is guaranteed to produce a
Python `str`: the top-level `response` field, if present, holds a string,
and the `message` fallback fields `text`/`response` are absent, falsy or
strings. -/
def extractOkB : JVal → Bool
  | .obj d =>
    (match jGet d "response" with
     | none => true
     | some v => isStrJ v) &&
    (match jGet d "message" with
     | some (.obj m) => fieldOkB (jGet m "text") && fieldOkB (jGet m "response")
     | _ => true)
  | _ => true

theorem pyTruthy_null : pyTruthy .null = false := rfl

theorem pyTruthy_str_empty : pyTruthy (.str "") = false := by decide

theorem isStrJ_str (s : String) : isStrJ (.str s) = true := rfl

theorem harmonyFallthrough_isStr (m : List (String × JVal))
    (h1 : fieldOkB (jGet m "text") = true) (h2 : fieldOkB (jGet m "response") = true) :
    isStrJ (harmonyFallthrough m) = true := by
  rw [harmonyFallthrough]
  cases ht : jGet m "text" with
  | none =>
    cases hr : jGet m "response" with
    | none => simp [pyOr, pyTruthy_null, pyTruthy_str_empty, isStrJ_str]
    | some rv =>
      rw [hr] at h2
      by_cases hrv : pyTruthy rv = true
      · have hsv : isStrJ rv = true := by
          simp [fieldOkB, hrv] at h2
          exact h2
        simp [pyOr, pyTruthy_null, hrv, hsv]
      · simp only [Bool.not_eq_true] at hrv
        simp [pyOr, pyTruthy_null, pyTruthy_str_empty, hrv, isStrJ_str]
  | some tv =>
    rw [ht] at h1
    by_cases htv : pyTruthy tv = true
    · have hsv : isStrJ tv = true := by
        simp [fieldOkB, htv] at h1
        exact h1
      simp [pyOr, htv, hsv]
    · simp only [Bool.not_eq_true] at htv
      cases hr : jGet m "response" with
      | none => simp [pyOr, pyTruthy_null, pyTruthy_str_empty, htv, isStrJ_str]
      | some rv =>
        rw [hr] at h2
        by_cases hrv : pyTruthy rv = true
        · have hsv : isStrJ rv = true := by
            simp [fieldOkB, hrv] at h2
            exact h2
          simp [pyOr, htv, hrv, hsv]
        · simp only [Bool.not_eq_true] at hrv
          simp [pyOr, pyTruthy_str_empty, htv, hrv, isStrJ_str]

theorem harmony_isStr_or (m : List (String × JVal)) :
    isStrJ (extract_from_harmony_message m) = true
      ∨ extract_from_harmony_message m = harmonyFallthrough m := by
  cases hc : jGet m "content" with
  | none =>
    simp only [extract_from_harmony_message, hc]
    exact Or.inr trivial
  | some cv =>
    cases cv with
    | str s =>
      simp only [extract_from_harmony_message, hc]
      exact Or.inl (isStrJ_str s)
    | arr parts =>
      simp only [extract_from_harmony_message, hc]
      cases hs : (harmonyScan parts).1 with
      | some j =>
        simp only [hs]
        exact Or.inl (isStrJ_str _)
      | none =>
        simp only [hs]
        by_cases he : (harmonyScan parts).2.isEmpty
        · simp only [he, if_true]
          exact Or.inr trivial
        · simp only [he]
          simp only [Bool.false_eq_true, if_false]
          exact Or.inl (isStrJ_str _)
    | null => simp only [extract_from_harmony_message, hc]; exact Or.inr trivial
    | bool b => simp only [extract_from_harmony_message, hc]; exact Or.inr trivial
    | num n => simp only [extract_from_harmony_message, hc]; exact Or.inr trivial
    | obj kvs => simp only [extract_from_harmony_message, hc]; exact Or.inr trivial

theorem extractTail_isStr (d : List (String × JVal)) (data : JVal)
    (hresp : (match jGet d "response" with
      | none => true
      | some v => isStrJ v) = true) :
    isStrJ (extractTail d data) = true := by
  cases hr : jGet d "response" with
  | some rv =>
    rw [hr] at hresp
    simp only [extractTail, hr]
    exact hresp
  | none =>
    cases hc : jGet d "content" with
    | none => simp only [extractTail, hr, hc]; exact isStrJ_str _
    | some cv =>
      cases cv with
      | str s => simp only [extractTail, hr, hc]; exact isStrJ_str s
      | arr c =>
        simp only [extractTail, hr, hc]
        rcases harmony_isStr_or [("content", .arr c)] with h | h
        · exact h
        · rw [h, harmonyFallthrough]
          have h1 : jGet [("content", JVal.arr c)] "text" = none := by
            simp [jGet]
          have h2 : jGet [("content", JVal.arr c)] "response" = none := by
            simp [jGet]
          rw [h1, h2]
          simp [pyOr, pyTruthy_null, isStrJ_str]
      | null => simp only [extractTail, hr, hc]; exact isStrJ_str _
      | bool b => simp only [extractTail, hr, hc]; exact isStrJ_str _
      | num n => simp only [extractTail, hr, hc]; exact isStrJ_str _
      | obj kvs => simp only [extractTail, hr, hc]; exact isStrJ_str _

theorem extract_isStr_of_ok (data : JVal) (h : extractOkB data = true) :
    isStrJ (extract_text_or_json data) = true := by
  cases data with
  | obj d =>
    rw [extractOkB] at h
    simp only [Bool.and_eq_true] at h
    obtain ⟨hresp, hmsg⟩ := h
    cases hm : jGet d "message" with
    | none =>
      simp only [extract_text_or_json, hm]
      exact extractTail_isStr d _ hresp
    | some mv =>
      cases mv with
      | obj m =>
        rw [hm] at hmsg
        simp only [Bool.and_eq_true] at hmsg
        simp only [extract_text_or_json, hm]
        by_cases htr : pyTruthy (extract_from_harmony_message m) = true
        · simp only [htr, if_true]
          rcases harmony_isStr_or m with hh | hh
          · exact hh
          · rw [hh]
            exact harmonyFallthrough_isStr m hmsg.1 hmsg.2
        · simp only [Bool.not_eq_true] at htr
          simp only [htr, Bool.false_eq_true, if_false]
          exact extractTail_isStr d _ hresp
      | null => simp only [extract_text_or_json, hm]; exact extractTail_isStr d _ hresp
      | bool b => simp only [extract_text_or_json, hm]; exact extractTail_isStr d _ hresp
      | num n => simp only [extract_text_or_json, hm]; exact extractTail_isStr d _ hresp
      | str s => simp only [extract_text_or_json, hm]; exact extractTail_isStr d _ hresp
      | arr xs => simp only [extract_text_or_json, hm]; exact extractTail_isStr d _ hresp
  | null => exact isStrJ_str _
  | bool b => exact isStrJ_str _
  | num n => exact isStrJ_str _
  | str s => exact isStrJ_str _
  | arr xs => exact isStrJ_str _

/-! ## Facts about `_messages_to_prompt` and `_chat`. -/

/-- The `User:`/`Assistant:` line a message contributes, if any. -/
def convoLine (m : Message) : Option String :=
  if m.role = "user" then some ("User: " ++ m.content)
  else if m.role = "assistant" then some ("Assistant: " ++ m.content)
  else none

theorem convo_foldl_eq (msgs : List Message) :
    ∀ acc : List String,
      msgs.foldl
        (fun acc m =>
          if m.role = "user" then acc ++ ["User: " ++ m.content]
          else if m.role = "assistant" then acc ++ ["Assistant: " ++ m.content]
          else acc) acc
      = acc ++ msgs.filterMap convoLine := by
  induction msgs with
  | nil => intro acc; simp
  | cons m ms ih =>
    intro acc
    rw [List.foldl_cons, List.filterMap_cons]
    by_cases h1 : m.role = "user"
    · rw [if_pos h1]
      have hc : convoLine m = some ("User: " ++ m.content) := by
        rw [convoLine, if_pos h1]
      rw [hc, ih]
      simp
    · by_cases h2 : m.role = "assistant"
      · rw [if_neg h1, if_pos h2]
        have hc : convoLine m = some ("Assistant: " ++ m.content) := by
          rw [convoLine, if_neg h1, if_pos h2]
        rw [hc, ih]
        simp
      · rw [if_neg h1, if_neg h2]
        have hc : convoLine m = none := by
          rw [convoLine, if_neg h1, if_neg h2]
        rw [hc, ih]

theorem pyJoin_concat (sep : String) :
    ∀ (xs : List String) (x : String), ∃ p, pyJoin sep (xs ++ [x]) = p ++ x := by
  intro xs
  induction xs with
  | nil =>
    intro x
    exact ⟨"", by simp [pyJoin]⟩
  | cons y ys ih =>
    intro x
    obtain ⟨p, hp⟩ := ih x
    cases ys with
    | nil => exact ⟨y ++ sep, by simp [pyJoin, String.append_assoc]⟩
    | cons z zs =>
      refine ⟨y ++ sep ++ p, ?_⟩
      rw [show (y :: z :: zs) ++ [x] = y :: z :: (zs ++ [x]) from rfl]
      rw [show pyJoin sep (y :: z :: (zs ++ [x]))
          = y ++ sep ++ pyJoin sep (z :: (zs ++ [x])) from rfl]
      rw [show z :: (zs ++ [x]) = (z :: zs) ++ [x] from rfl, hp]
      simp [String.append_assoc]

/-- The joined system content of a conversation. -/
def sysJoined (messages : List Message) : String :=
  pyJoin "\n"
    (messages.filterMap (fun m => if m.role = "system" then some m.content else none))

theorem messages_to_prompt_spec (msgs : List Message) :
    messages_to_prompt msgs
      = (if sysJoined msgs = "" then "" else "[System]\n" ++ sysJoined msgs ++ "\n\n")
        ++ pyJoin "\n" (msgs.filterMap convoLine ++ ["Assistant:"])
    ∧ ∃ p, messages_to_prompt msgs = p ++ "Assistant:" := by
  have he : messages_to_prompt msgs
      = (if sysJoined msgs = "" then "" else "[System]\n" ++ sysJoined msgs ++ "\n\n")
        ++ pyJoin "\n" (msgs.filterMap convoLine ++ ["Assistant:"]) := by
    rw [messages_to_prompt, convo_foldl_eq msgs [], List.nil_append]
    by_cases h : sysJoined msgs = ""
    · rw [show pyJoin "\n"
          (msgs.filterMap fun m => if m.role = "system" then some m.content else none)
          = sysJoined msgs from rfl]
      simp [h]
    · rw [show pyJoin "\n"
          (msgs.filterMap fun m => if m.role = "system" then some m.content else none)
          = sysJoined msgs from rfl]
      simp [h]
  refine ⟨he, ?_⟩
  obtain ⟨p, hp⟩ := pyJoin_concat "\n" (msgs.filterMap convoLine) "Assistant:"
  refine ⟨(if sysJoined msgs = "" then "" else "[System]\n" ++ sysJoined msgs ++ "\n\n") ++ p, ?_⟩
  rw [he, hp]
  simp [String.append_assoc]

theorem prefix_mid (x y : String) : ∃ a b, x ++ y = a ++ x ++ b := by
  refine ⟨"", y, ?_⟩
  simp

theorem suffix_mid (x y : String) : ∃ a b, x ++ y = a ++ y ++ b := by
  refine ⟨x, "", ?_⟩
  simp

/-- On a 4xx/5xx primary response the gateway makes exactly one call and
re-raises the wrapped error (whose `response` attribute is `None`). -/
theorem chat_error_eq (backend : Backend) (msgs : List Message) (model : Option String)
    (t : ℚ) (jm : Bool)
    (hs1 : 400 ≤ (backend (chatRequestOf msgs model t jm)).status)
    (hs2 : (backend (chatRequestOf msgs model t jm)).status < 600) :
    chat backend msgs model t jm
      = ([chatRequestOf msgs model t jm],
         .error
           { message :=
               raiseForStatusMsg (backend (chatRequestOf msgs model t jm))
                   (chatRequestOf msgs model t jm).url
                 ++ " (model=" ++ payloadModel (chatRequestOf msgs model t jm).payload ++ ")"
                 ++ " | server said: "
                 ++ textHead500 (backend (chatRequestOf msgs model t jm)),
             response := none }) := by
  have hpost : post_json backend (chatRequestOf msgs model t jm)
      = .error
          { message :=
              raiseForStatusMsg (backend (chatRequestOf msgs model t jm))
                  (chatRequestOf msgs model t jm).url
                ++ " (model=" ++ payloadModel (chatRequestOf msgs model t jm).payload ++ ")"
                ++ " | server said: "
                ++ textHead500 (backend (chatRequestOf msgs model t jm)),
            response := none } := by
    rw [post_json, if_pos ⟨hs1, hs2⟩]
  rw [chat]
  rw [hpost]
  simp

/-! ## Claim theorems. -/

/-- A backend whose chat endpoint answers 404 (endpoint not supported). -/
def backend404 : Backend :=
  fun _ => { status := 404, reason := "Not Found", text := "chat endpoint missing",
             jsonBody := .null }

/-- C1: the claim says a 404 on the primary POST triggers exactly one
fallback POST to `/api/generate` (two calls total). The code disagrees:
`_post_json` re-raises a fresh `HTTPError` without the `response` attribute,
so `_chat` reads `status_code` as `None`, never matches 404/501, and
re-raises after exactly one network call — the fallback branch is dead. -/
theorem claim_C1_fallback_dead :
    (chat backend404 [⟨"user", "hi"⟩] none (1/5) false).1.length = 1
    ∧ ∃ e, (chat backend404 [⟨"user", "hi"⟩] none (1/5) false).2 = .error e := by
  exact ⟨rfl, ⟨_, rfl⟩⟩

/-- A backend whose chat endpoint answers 304 (non-2xx but not an HTTP
error status for `raise_for_status`). -/
def backend304 : Backend :=
  fun _ => { status := 304, reason := "Not Modified", text := "",
             jsonBody := .obj [("response", .str "cached")] }

/-- C2 counterexample: 304 is a non-2xx status other than 404/501, yet the
call does not fail — `raise_for_status` only raises for 4xx/5xx, so the
3xx response is normalized and returned. -/
theorem claim_C2_counterexample :
    (chat backend304 [⟨"user", "hi"⟩] none (1/5) false).1.length = 1
    ∧ (chat backend304 [⟨"user", "hi"⟩] none (1/5) false).2 = .ok (.str "cached") := by
  exact ⟨rfl, rfl⟩

/-- C2 (amended to 4xx/5xx statuses): for every backend whose primary
response status is in [400, 600) and is neither 404 nor 501, `chat` makes
exactly one network call and fails with an error whose message contains the
HTTP status, the target model name, and at most 500 characters of the raw
response body. -/
theorem claim_C2_http_error_propagation (backend : Backend) (msgs : List Message)
    (model : Option String) (t : ℚ) (jm : Bool)
    (hs1 : 400 ≤ (backend (chatRequestOf msgs model t jm)).status)
    (hs2 : (backend (chatRequestOf msgs model t jm)).status < 600)
    (_h404 : ¬(backend (chatRequestOf msgs model t jm)).status = 404)
    (_h501 : ¬(backend (chatRequestOf msgs model t jm)).status = 501) :
    (chat backend msgs model t jm).1 = [chatRequestOf msgs model t jm]
    ∧ ∃ e, (chat backend msgs model t jm).2 = .error e
      ∧ (∃ a b, e.message
          = a ++ toString (backend (chatRequestOf msgs model t jm)).status ++ b)
      ∧ (∃ a b, e.message = a ++ model.getD MODEL ++ b)
      ∧ (∃ a b, e.message = a ++ textHead500 (backend (chatRequestOf msgs model t jm)) ++ b)
      ∧ (textHead500 (backend (chatRequestOf msgs model t jm))).length ≤ 500 := by
  have hchat := chat_error_eq backend msgs model t jm hs1 hs2
  refine ⟨by rw [hchat], _, by rw [hchat], ?_, ?_, ?_, ?_⟩
  · have hmsg :
        raiseForStatusMsg (backend (chatRequestOf msgs model t jm))
            (chatRequestOf msgs model t jm).url
          ++ " (model=" ++ payloadModel (chatRequestOf msgs model t jm).payload ++ ")"
          ++ " | server said: " ++ textHead500 (backend (chatRequestOf msgs model t jm))
        = toString (backend (chatRequestOf msgs model t jm)).status
          ++ ((if (backend (chatRequestOf msgs model t jm)).status < 500
               then " Client Error: " else " Server Error: ")
            ++ (backend (chatRequestOf msgs model t jm)).reason
            ++ " for url: " ++ (chatRequestOf msgs model t jm).url
            ++ " (model=" ++ payloadModel (chatRequestOf msgs model t jm).payload ++ ")"
            ++ " | server said: "
            ++ textHead500 (backend (chatRequestOf msgs model t jm))) := by
      rw [raiseForStatusMsg]
      by_cases hlt : (backend (chatRequestOf msgs model t jm)).status < 500
      · rw [if_pos hlt, if_pos hlt]
        simp [String.append_assoc]
      · rw [if_neg hlt, if_neg hlt]
        simp [String.append_assoc]
    rw [hmsg]
    exact prefix_mid _ _
  · refine ⟨raiseForStatusMsg (backend (chatRequestOf msgs model t jm))
        (chatRequestOf msgs model t jm).url ++ " (model=",
      ")" ++ " | server said: " ++ textHead500 (backend (chatRequestOf msgs model t jm)), ?_⟩
    rw [show payloadModel (chatRequestOf msgs model t jm).payload = model.getD MODEL from rfl]
    simp [String.append_assoc]
  · exact suffix_mid _ _
  · rw [textHead500]
    rw [show (String.mk ((backend (chatRequestOf msgs model t jm)).text.data.take 500)).length
        = ((backend (chatRequestOf msgs model t jm)).text.data.take 500).length from rfl]
    simp

/-- A backend whose chat endpoint answers 500. -/
def backend500 : Backend :=
  fun _ => { status := 500, reason := "Internal Server Error", text := "boom",
             jsonBody := .null }

/-- C2 witness: at a concrete backend returning 500, the hypotheses hold and
the single-call error propagation follows from the theorem. -/
theorem claim_C2_http_error_propagation_witness :
    (400 ≤ (backend500 (chatRequestOf [⟨"user", "hi"⟩] none (1/5) false)).status
      ∧ (backend500 (chatRequestOf [⟨"user", "hi"⟩] none (1/5) false)).status < 600
      ∧ ¬(backend500 (chatRequestOf [⟨"user", "hi"⟩] none (1/5) false)).status = 404
      ∧ ¬(backend500 (chatRequestOf [⟨"user", "hi"⟩] none (1/5) false)).status = 501)
    ∧ (chat backend500 [⟨"user", "hi"⟩] none (1/5) false).1
        = [chatRequestOf [⟨"user", "hi"⟩] none (1/5) false]
    ∧ ∃ e, (chat backend500 [⟨"user", "hi"⟩] none (1/5) false).2 = .error e := by
  have h := claim_C2_http_error_propagation backend500 [⟨"user", "hi"⟩] none (1/5) false
    (by decide) (by decide) (by decide) (by decide)
  exact ⟨⟨by decide, by decide, by decide, by decide⟩, h.1,
    ⟨h.2.choose, h.2.choose_spec.1⟩⟩

/-- C3 counterexample: when `message.content` is the empty string the
normalization does not return it — the empty extraction is falsy and the
whole payload is serialized instead. -/
theorem claim_C3_counterexample :
    ¬extract_text_or_json (.obj [("message", .obj [("content", .str "")])]) = .str "" := by
  have he : extract_text_or_json (.obj [("message", .obj [("content", .str "")])])
      = .str (dumps (.obj [("message", .obj [("content", .str "")])])) := rfl
  rw [he]
  intro h
  injection h with h1
  exact dumps_ne_empty _ h1

/-- C3 (amended to nonempty strings): for every chat-style payload whose
`message.content` is a nonempty plain string, normalization returns exactly
that string. -/
theorem claim_C3_plain_string_content (d m : List (String × JVal)) (s : String)
    (hm : jGet d "message" = some (.obj m))
    (hc : jGet m "content" = some (.str s))
    (hs : ¬s = "") :
    extract_text_or_json (.obj d) = .str s := by
  simp only [extract_text_or_json, hm, extract_from_harmony_message, hc]
  rw [if_pos]
  simp [pyTruthy, hs]

/-- C3 witness: a concrete nonempty plain-string content is returned
unchanged. -/
theorem claim_C3_plain_string_content_witness :
    jGet [("message", JVal.obj [("content", JVal.str "hello")])] "message"
        = some (.obj [("content", JVal.str "hello")])
    ∧ extract_text_or_json (.obj [("message", .obj [("content", .str "hello")])])
        = .str "hello" := by
  refine ⟨rfl, ?_⟩
  exact claim_C3_plain_string_content _ _ "hello" rfl rfl (by decide)

/-- C4 counterexample: a block whose `json` field is JSON `null` is skipped
by the scan (`first_json is None` stays true), so the claim's "first `json`
block" is not honored: the text blocks win instead of `null`'s
serialization. -/
theorem claim_C4_counterexample :
    extract_text_or_json
        (.obj [("message", .obj [("content",
          .arr [.obj [("json", .null)], .obj [("text", .str "hi")]])])])
      = .str "hi"
    ∧ ¬extract_text_or_json
        (.obj [("message", .obj [("content",
          .arr [.obj [("json", .null)], .obj [("text", .str "hi")]])])])
      = .str (dumps .null) := by
  have he : extract_text_or_json
      (.obj [("message", .obj [("content",
        .arr [.obj [("json", .null)], .obj [("text", .str "hi")]])])])
      = .str "hi" := rfl
  refine ⟨he, ?_⟩
  rw [he]
  have hd : dumps JVal.null = "null" := by rw [dumps, dChars]
  intro h
  injection h with h1
  rw [hd] at h1
  exact absurd h1 (by decide)

/-- C4 (amended to non-null `json` values): when the block list splits as
`pre ++ blk :: post` where no block of `pre` carries a non-null `json`
field and `blk` carries a non-null `json` value `jv`, normalization returns
the JSON serialization of `jv`, and no text-block content is part of the
result. -/
theorem claim_C4_json_block_precedence (d m : List (String × JVal))
    (parts pre post : List JVal) (blk jv : JVal)
    (hm : jGet d "message" = some (.obj m))
    (hc : jGet m "content" = some (.arr parts))
    (hsplit : parts = pre ++ blk :: post)
    (hpre : ∀ b ∈ pre, headJsonOf b = none)
    (hblk : headJsonOf blk = some jv) :
    extract_text_or_json (.obj d) = .str (dumps jv) := by
  subst hsplit
  have hscan := harmonyScan_fst_append pre blk post jv hpre hblk
  simp only [extract_text_or_json, hm, extract_from_harmony_message, hc, hscan]
  rw [if_pos (pyTruthy_dumps jv)]

/-- C4 witness: a concrete `json` block takes precedence over a text block. -/
theorem claim_C4_json_block_precedence_witness :
    headJsonOf (.obj [("json", JVal.obj [("a", JVal.num 1)])])
        = some (JVal.obj [("a", JVal.num 1)])
    ∧ extract_text_or_json
        (.obj [("message", .obj [("content",
          .arr [.obj [("text", .str "ignored")],
                .obj [("json", .obj [("a", .num 1)])]])])])
      = .str (dumps (.obj [("a", .num 1)])) := by
  refine ⟨rfl, ?_⟩
  exact claim_C4_json_block_precedence _ _ _
    [.obj [("text", .str "ignored")]] [] _ _ rfl rfl rfl
    (by intro b hb; simp at hb; subst hb; rfl) rfl

/-- C5 counterexample: with a single text block holding the empty string the
concatenation is empty, the extraction is falsy, and the payload
serialization is returned instead of the empty concatenation. -/
theorem claim_C5_counterexample :
    ¬extract_text_or_json
        (.obj [("message", .obj [("content", .arr [.obj [("text", .str "")]])])])
      = .str "" := by
  have he : extract_text_or_json
      (.obj [("message", .obj [("content", .arr [.obj [("text", .str "")]])])])
      = .str (dumps (.obj [("message",
          .obj [("content", .arr [.obj [("text", .str "")]])])])) := rfl
  rw [he]
  intro h
  injection h with h1
  exact dumps_ne_empty _ h1

/-- C5 (amended): when no block carries a usable `json` field, each block
contributes exactly one text string, and the concatenation is nonempty,
normalization returns the concatenation in encounter order. -/
theorem claim_C5_text_concatenation (d m : List (String × JVal)) (parts : List JVal)
    (ss : List String)
    (hm : jGet d "message" = some (.obj m))
    (hc : jGet m "content" = some (.arr parts))
    (hps : List.Forall₂
      (fun part s => headJsonOf part = none ∧ headTextsOf part = [s]) parts ss)
    (hne : ¬pyJoin "" ss = "") :
    extract_text_or_json (.obj d) = .str (pyJoin "" ss) := by
  have hscan := harmonyScan_forall2 parts ss hps
  have hss : ¬ss = [] := by
    rintro rfl
    exact hne rfl
  simp only [extract_text_or_json, hm, extract_from_harmony_message, hc, hscan]
  have hie : ss.isEmpty = false := by
    rcases ss with _ | ⟨s0, srest⟩
    · exact absurd rfl hss
    · rfl
  simp only [hie, Bool.false_eq_true, if_false]
  rw [if_pos]
  simp [pyTruthy, hne]

/-- C5 witness: two concrete text blocks concatenate in order. -/
theorem claim_C5_text_concatenation_witness :
    ¬pyJoin "" ["he", "llo"] = ""
    ∧ extract_text_or_json
        (.obj [("message", .obj [("content",
          .arr [.obj [("text", .str "he")], .obj [("text", .str "llo")]])])])
      = .str (pyJoin "" ["he", "llo"]) := by
  refine ⟨by decide, ?_⟩
  exact claim_C5_text_concatenation _ _ _ ["he", "llo"] rfl rfl
    (List.Forall₂.cons ⟨rfl, rfl⟩ (List.Forall₂.cons ⟨rfl, rfl⟩ List.Forall₂.nil))
    (by decide)

/-- C6 counterexample: for the payload `\x7b"response": 42\x7d` normalization
returns the number 42 verbatim, not a string — the `response` field is
returned as-is, whatever its type. -/
theorem claim_C6_counterexample :
    extract_text_or_json (.obj [("response", .num 42)]) = .num 42
    ∧ isStrJ (extract_text_or_json (.obj [("response", .num 42)])) = false := by
  exact ⟨rfl, rfl⟩

/-- C6 (amended): normalization is a total function — in the embedding it
never fails by construction — and it returns a Python `str` for every
payload in which the verbatim-returned fields can only be strings: the
top-level `response` field (when present) holds a string, and the message
fallback fields `text`/`response` are absent, falsy or strings. Unmatched
shapes fall back to the JSON serialization of the whole payload. -/
theorem claim_C6_normalization_total (data : JVal) (h : extractOkB data = true) :
    isStrJ (extract_text_or_json data) = true :=
  extract_isStr_of_ok data h

/-- C6 witness: a concrete well-shaped payload yields a string. -/
theorem claim_C6_normalization_total_witness :
    extractOkB (.obj [("response", .str "ok")]) = true
    ∧ isStrJ (extract_text_or_json (.obj [("response", .str "ok")])) = true := by
  refine ⟨rfl, ?_⟩
  exact claim_C6_normalization_total _ rfl

/-- C10: a chat-style payload whose message extraction yields the empty
string does not return it: with no `response` and no top-level `content`
field the normalization returns the JSON serialization of the entire
payload, which is never the empty string. -/
theorem claim_C10_empty_content_fallthrough (d m : List (String × JVal))
    (hm : jGet d "message" = some (.obj m))
    (hharm : extract_from_harmony_message m = .str "")
    (hresp : jGet d "response" = none)
    (hcont : jGet d "content" = none) :
    extract_text_or_json (.obj d) = .str (dumps (.obj d))
    ∧ ¬extract_text_or_json (.obj d) = .str "" := by
  have he : extract_text_or_json (.obj d) = .str (dumps (.obj d)) := by
    simp only [extract_text_or_json, hm, hharm, pyTruthy_str_empty, Bool.false_eq_true,
      if_false, extractTail, hresp, hcont]
  refine ⟨he, ?_⟩
  rw [he]
  intro h
  injection h with h1
  exact dumps_ne_empty _ h1

/-- C10 witness: the concrete empty-content payload serializes itself. -/
theorem claim_C10_empty_content_fallthrough_witness :
    extract_from_harmony_message [("content", JVal.str "")] = .str ""
    ∧ extract_text_or_json (.obj [("message", .obj [("content", .str "")])])
        = .str (dumps (.obj [("message", .obj [("content", .str "")])])) := by
  refine ⟨rfl, ?_⟩
  exact (claim_C10_empty_content_fallthrough
    [("message", .obj [("content", .str "")])] [("content", .str "")] rfl rfl rfl rfl).1

/-- C7 counterexample: one system message with empty content — a system
message exists, yet the flattened prompt carries no `[System]` section,
because the code tests the joined string's truthiness, not the presence of
system messages. -/
theorem claim_C7_counterexample :
    messages_to_prompt [⟨"system", ""⟩, ⟨"user", "hi"⟩] = "User: hi\nAssistant:"
    ∧ ¬List.IsInfix "[System]".data ("User: hi\nAssistant:").data := by
  refine ⟨rfl, ?_⟩
  decide

/-- C7 (amended: the `[System]` section appears iff the joined system
content is nonempty, not merely when a system message exists): the flattened
prompt is the `[System]` block — present exactly when the joined system
content is nonempty — followed by the `User:`/`Assistant:` lines of the
user and assistant messages in their original order, and it always ends
with the trailing `Assistant:` cue. -/
theorem claim_C7_prompt_flattening (msgs : List Message) :
    messages_to_prompt msgs
      = (if sysJoined msgs = "" then "" else "[System]\n" ++ sysJoined msgs ++ "\n\n")
        ++ pyJoin "\n" (msgs.filterMap convoLine ++ ["Assistant:"])
    ∧ ∃ p, messages_to_prompt msgs = p ++ "Assistant:" :=
  messages_to_prompt_spec msgs

/-- C8: `_coerce_json` round-trips every serializable value of the embedded
domain, unwraps a ```` ```json ```` fence, extracts an embedded object from
surrounding prose, and returns non-string inputs unchanged. -/
theorem claim_C8_coerce_json_roundtrip (v w : JVal) (hw : isStrJ w = false) :
    coerce_json (.str (dumps v)) = .ok v
    ∧ coerce_json w = .ok w
    ∧ coerce_json (.str "```json\n\x7b\"a\":1\x7d\n```") = .ok (.obj [("a", .num 1)])
    ∧ coerce_json (.str "here is your data: \x7b\"a\":1\x7d thanks")
        = .ok (.obj [("a", .num 1)]) := by
  refine ⟨coerceStr_dumps v, ?_, rfl, rfl⟩
  cases w with
  | str s => exact absurd hw (by simp [isStrJ])
  | null => rfl
  | bool b => rfl
  | num n => rfl
  | arr xs => rfl
  | obj kvs => rfl

/-- C8 witness: the round trip and the pass-through at concrete values. -/
theorem claim_C8_coerce_json_roundtrip_witness :
    isStrJ (JVal.obj [("k", JVal.bool true)]) = false
    ∧ coerce_json (.str (dumps (.arr [.num 1, .str "x"]))) = .ok (.arr [.num 1, .str "x"])
    ∧ coerce_json (.obj [("k", .bool true)]) = .ok (.obj [("k", .bool true)]) := by
  have h := claim_C8_coerce_json_roundtrip (.arr [.num 1, .str "x"])
    (.obj [("k", .bool true)]) rfl
  exact ⟨rfl, h.1, h.2.1⟩

/-- C9 counterexample: for `"\x7boops\x7d"` a brace substring is found but
fails to parse, so the propagated error is the raw JSON decode failure,
which does not carry the first-500-characters excerpt the claim requires. -/
theorem claim_C9_counterexample :
    coerceStr "\x7boops\x7d" = .error .decodeFailure
    ∧ ¬coerceStr "\x7boops\x7d"
        = .error (.malformed (String.mk ((candidateOf "\x7boops\x7d").take 500))) := by
  refine ⟨rfl, ?_⟩
  intro h
  rw [show coerceStr "\x7boops\x7d" = .error .decodeFailure from rfl] at h
  injection h with h1
  exact CoerceError.noConfusion h1

/-- C9 (amended): when neither the direct parse nor a brace/bracket
substring yields JSON, `_coerce_json` raises the `MalformedModelOutput`
error carrying the first 500 characters of the candidate text; when a
substring is found but is itself unparseable, the underlying JSON decode
error propagates instead (without the excerpt); and a normal return happens
only when one of the two parses succeeded. -/
theorem claim_C9_coercion_failure (s : String) :
    (loadsL (candidateOf s) = none → firstJsonL (candidateOf s) = none →
      coerceStr s = .error (.malformed (String.mk ((candidateOf s).take 500))))
    ∧ (loadsL (candidateOf s) = none → ∀ sub, firstJsonL (candidateOf s) = some sub →
        loadsL sub = none → coerceStr s = .error .decodeFailure)
    ∧ (∀ v, coerceStr s = .ok v →
        loadsL (candidateOf s) = some v
        ∨ ∃ sub, firstJsonL (candidateOf s) = some sub ∧ loadsL sub = some v) := by
  refine ⟨?_, ?_, ?_⟩
  · intro h1 h2
    simp only [coerceStr, h1, h2]
  · intro h1 sub h2 h3
    simp only [coerceStr, h1, h2, h3]
  · intro v hv
    rw [coerceStr] at hv
    cases hl : loadsL (candidateOf s) with
    | some w =>
      simp only [hl] at hv
      injection hv with hw
      exact Or.inl (by rw [hw])
    | none =>
      cases hf : firstJsonL (candidateOf s) with
      | none =>
        simp only [hl, hf] at hv
        exact absurd hv (by simp)
      | some sub =>
        cases hsl : loadsL sub with
        | none =>
          simp only [hl, hf, hsl] at hv
          exact absurd hv (by simp)
        | some w =>
          simp only [hl, hf, hsl] at hv
          injection hv with hw
          exact Or.inr ⟨sub, rfl, hw ▸ hsl⟩

/-- C9 witness: `"no json here"` has no parse and no brace substring, and
fails with the excerpt-carrying error. -/
theorem claim_C9_coercion_failure_witness :
    loadsL (candidateOf "no json here") = none
    ∧ firstJsonL (candidateOf "no json here") = none
    ∧ coerceStr "no json here"
        = .error (.malformed (String.mk ((candidateOf "no json here").take 500))) := by
  refine ⟨rfl, rfl, ?_⟩
  exact (claim_C9_coercion_failure "no json here").1 rfl rfl
